import Mathlib

/-!
A verification development for `idworker.go` of go-snowflake.

The Go source is embedded shallowly.  `int64` values are integers kept in
`[-2^63, 2^63)` by `wrap64`, `uint16`/`uint8` values are naturals reduced
modulo `2^16`/`2^8` where the source does arithmetic on them, the mutex is
dropped (every call is one atomic step), and the wall clock is an explicit
argument of every function that reads it.
-/

namespace Snowflake

/-! ## Machine integers -/

/-- Two's-complement wrap-around of an integer into the `int64` range. -/
def wrap64 (x : Int) : Int := (x + 2 ^ 63) % 2 ^ 64 - 2 ^ 63

/-- Membership in the `int64` range. -/
def isInt64 (x : Int) : Prop := -(2 ^ 63) ≤ x ∧ x < 2 ^ 63

/-- Go `x << k` on `int64`: multiplication by `2^k` with wrap-around. -/
def shl64 (x : Int) (k : Nat) : Int := wrap64 (x * 2 ^ k)

/-- Go `x >> k` on `int64`: the arithmetic (sign-propagating) right shift. -/
def sar64 (x : Int) (k : Nat) : Int := Int.shiftRight x k

/-- Go `x | y` on `int64` (two's-complement bitwise or). -/
def or64 (x y : Int) : Int := Int.lor x y

/-- Go `x & y` on `int64` (two's-complement bitwise and). -/
def and64 (x y : Int) : Int := Int.land x y

/-! ## Constants of the source -/

/-- Bit length of time. -/
def BitLenTime : Nat := 42

/-- Bit length of sequence number. -/
def BitLenSequence : Nat := 13

/-- Bit length of machine id. -/
def BitLenWorkerID : Nat := 8

/-- The tick length `1e7` nsec, i.e. 10 msec. -/
def timeStampUnit : Int := 10000000

/-- The two error values of the package. -/
inductive Error where
  | ErrStartTimeAfterNow
  | ErrOverTime
  deriving DecidableEq, Repr

/-! ## The part of Go's `time` package the source uses -/

/-- A `time.Time` instant: whole seconds since January 1, year 1, 00:00:00 UTC
and the nanoseconds within that second.  The zero value is `⟨0, 0⟩`. -/
structure Time where
  sec : Int
  nsec : Nat
  deriving DecidableEq, Repr

/-- Offset between the internal second count and Unix seconds. -/
def internalToUnix : Int := -62135596800

/-- Go `t.IsZero()`. -/
def Time.IsZero (t : Time) : Bool := t.sec == 0 && t.nsec == 0

/-- Go `t.After(u)`: the instant `t` is strictly later than the instant `u`
(wall-clock comparison; monotonic clock readings are not modelled). -/
def Time.After (t u : Time) : Bool :=
  decide (t.sec > u.sec) || (t.sec == u.sec && decide (t.nsec > u.nsec))

/-- Go `t.UnixNano()`: an `int64`, wrapping for instants outside its range. -/
def Time.UnixNano (t : Time) : Int :=
  wrap64 ((t.sec + internalToUnix) * 1000000000 + (t.nsec : Int))

/-- Whether a year of the proleptic Gregorian calendar is a leap year. -/
def isLeap (y : Nat) : Bool := y % 4 == 0 && (y % 100 != 0 || y % 400 == 0)

/-- Days in the years `1 .. y-1`. -/
def daysBeforeYear (y : Nat) : Nat :=
  365 * (y - 1) + (y - 1) / 4 - (y - 1) / 100 + (y - 1) / 400

/-- Days in the months `1 .. m-1` of year `y`. -/
def daysBeforeMonth (y m : Nat) : Nat :=
  ([31, 28, 31, 30, 31, 30, 31, 31, 30, 31, 30, 31].take (m - 1)).sum +
    (if isLeap y && decide (m > 2) then 1 else 0)

/-- Go `time.Date(y, m, d, hh, mm, ss, ns, time.UTC)` for in-range fields. -/
def Date (y m d hh mm ss ns : Nat) : Time :=
  { sec := (((daysBeforeYear y + daysBeforeMonth y m + (d - 1)) * 86400 +
      hh * 3600 + mm * 60 + ss : Nat) : Int)
    nsec := ns }

/-- The default epoch of the source, `2019-05-06 00:00:00 UTC`. -/
def defaultStartTime : Time := Date 2019 5 6 0 0 0 0

/-! ## The generator -/

/-- The `IdWorker` struct without its mutex. -/
structure IdWorker where
  sequence : Nat
  startTime : Int
  workerId : Nat
  elapsedTime : Int
  deriving DecidableEq, Repr

/-- The `Settings` struct. -/
structure Settings where
  StartTime : Time
  WorkerId : Nat
  deriving DecidableEq, Repr

/-- Go `toTimeStamp`: Unix nanoseconds divided by the tick length, with Go's
truncating `int64` division. -/
def toTimeStamp (t : Time) : Int := Int.tdiv t.UnixNano timeStampUnit

/-- Go `sleepTime`; `now` is the clock reading taken inside it.  Durations are
`int64` nanoseconds, `time.Millisecond = 1e6`, `time.Nanosecond = 1`. -/
def sleepTime (overtime : Int) (now : Time) : Int :=
  wrap64 (wrap64 (wrap64 (overtime * 10) * 1000000) -
    wrap64 (Int.tmod now.UnixNano timeStampUnit * 1))

/-- Go `NewIdWorker`; `now` is the reading of `time.Now()`. -/
def NewIdWorker (st : Settings) (now : Time) : Except Error IdWorker :=
  let sequence : Nat := (2 ^ BitLenSequence - 1) % 2 ^ 16
  if st.StartTime.After now then
    Except.error Error.ErrStartTimeAfterNow
  else
    let startTime :=
      if st.StartTime.IsZero then toTimeStamp defaultStartTime
      else toTimeStamp st.StartTime
    Except.ok { sequence := sequence, startTime := startTime,
                workerId := st.WorkerId, elapsedTime := 0 }

/-- What one `NextInt` call leaves behind: the generator state after the call,
the returned pair `(id, err)`, and the duration handed to `time.Sleep` when the
call slept. -/
structure Outcome where
  state : IdWorker
  id : Int
  err : Option Error
  slept : Option Int
  deriving DecidableEq, Repr

/-- The local `current := toTimeStamp(time.Now()) - i.startTime` of `NextInt`. -/
def current (i : IdWorker) (now : Time) : Int := wrap64 (toTimeStamp now - i.startTime)

/-- The state update of `NextInt` (the `if`/`else` before the overflow check),
with the sleep request.  `now` is the reading of `time.Now()` in `NextInt`,
`sleepNow` the reading taken inside `sleepTime`. -/
def tick (i : IdWorker) (now sleepNow : Time) : IdWorker × Option Int :=
  let maskSequence : Nat := (2 ^ BitLenSequence - 1) % 2 ^ 16
  let current := current i now
  if i.elapsedTime < current then
    ({ i with elapsedTime := current, sequence := 0 }, none)
  else
    let sequence := ((i.sequence + 1) % 2 ^ 16) &&& maskSequence
    if sequence = 0 then
      let elapsedTime := wrap64 (i.elapsedTime + 1)
      ({ i with sequence := sequence, elapsedTime := elapsedTime },
        some (sleepTime (wrap64 (elapsedTime - current)) sleepNow))
    else
      ({ i with sequence := sequence }, none)

/-- The packed identifier
`elapsedTime<<(BitLenSequence+BitLenWorkerID) | sequence<<BitLenWorkerID | workerId`. -/
def pack (i : IdWorker) : Int :=
  or64 (or64 (shl64 i.elapsedTime (BitLenSequence + BitLenWorkerID))
    (shl64 (i.sequence : Int) BitLenWorkerID)) (i.workerId : Int)

/-- Go `NextInt`. -/
def NextInt (i : IdWorker) (now sleepNow : Time) : Outcome :=
  let r := tick i now sleepNow
  if r.1.elapsedTime ≥ 2 ^ BitLenTime then
    { state := r.1, id := 0, err := some Error.ErrOverTime, slept := r.2 }
  else
    { state := r.1, id := pack r.1, err := none, slept := r.2 }

/-- Go `Decompose`; the returned map is the list of its key/value pairs. -/
def Decompose (id : Int) : List (String × Int) :=
  let maskSequence : Int := shl64 (2 ^ BitLenSequence - 1) BitLenWorkerID
  let maskWorkerID : Int := 2 ^ BitLenWorkerID - 1
  let elapsedTime := sar64 id (BitLenSequence + BitLenWorkerID)
  let sequence := sar64 (and64 id maskSequence) BitLenWorkerID
  let workerId := and64 id maskWorkerID
  [("id", id), ("elapsedTime", elapsedTime), ("sequence", sequence), ("workerId", workerId)]

/-! ## Runs of calls on one instance -/

/-- The two clock readings one `NextInt` call may take. -/
abbrev Reading := Time × Time

/-- The generator state after feeding the readings `rs` to successive calls. -/
def stateAfter (i : IdWorker) : List Reading → IdWorker
  | [] => i
  | r :: rs => stateAfter (NextInt i r.1 r.2).state rs

/-- The outcomes of successive `NextInt` calls, in call order. -/
def calls (i : IdWorker) : List Reading → List Outcome
  | [] => []
  | r :: rs => NextInt i r.1 r.2 :: calls (NextInt i r.1 r.2).state rs

/-- The identifiers returned by the successful calls, in call order. -/
def ids (os : List Outcome) : List Int :=
  os.filterMap fun o => if o.err = none then some o.id else none

/-- Go map indexing `m[k]`: the stored value, or the zero value for a missing key. -/
def field (m : List (String × Int)) (k : String) : Int := (m.lookup k).getD 0

/-- The arithmetic reference for `Decompose`, in the words of the specification:
floor division by powers of two and non-negative remainders. -/
def decomposeSpec (id : Int) : List (String × Int) :=
  [("id", id),
   ("elapsedTime", Int.fdiv id (2 ^ 21)),
   ("sequence", Int.emod (Int.fdiv id (2 ^ 8)) (2 ^ 13)),
   ("workerId", Int.emod id (2 ^ 8))]

/-- Nanoseconds from the zero instant (January 1, year 1) to `t`. -/
def Time.nanos (t : Time) : Int := t.sec * 1000000000 + (t.nsec : Int)

/-! ## Reachable states -/

/-- The largest magnitude `toTimeStamp` can return: `(2^63 - 1) / 10^7`. -/
def maxTick : Int := 922337203685

/-- What holds of a generator at most `n` calls after its construction: the
sequence is a 13-bit value, the elapsed time is non-negative, and the pair
`(elapsedTime, sequence)`, read as one number, has grown by at most one per call
beyond what the clock alone can produce. -/
def Inv (n : Nat) (i : IdWorker) : Prop :=
  i.sequence ≤ 8191 ∧ 0 ≤ i.elapsedTime ∧
  8192 * i.elapsedTime + (i.sequence : Int) ≤ 2 ^ 54 + (n : Int) ∧
  -maxTick ≤ i.startTime ∧ i.startTime ≤ maxTick ∧ i.workerId < 256

/-- The pair `(elapsedTime, sequence)` read as one number. -/
def stamp (i : IdWorker) : Int := 8192 * i.elapsedTime + (i.sequence : Int)

/-! ## Named inputs used in the evaluations below -/

/-- Settings with the zero-value `StartTime` and worker id 0. -/
def zeroSettings : Settings := { StartTime := ⟨0, 0⟩, WorkerId := 0 }

/-- The generator `NewIdWorker zeroSettings` returns. -/
def zeroWorker : IdWorker :=
  { sequence := 8191, startTime := 155710080000, workerId := 0, elapsedTime := 0 }

/-- A call whose clock readings are both the default epoch itself. -/
def epochReading : Reading := (defaultStartTime, defaultStartTime)

/-- Number of same-tick calls after which `elapsedTime` of `zeroWorker`
stands at the largest `int64` with the sequence exhausted. -/
def wrapCalls : Nat := 8192 * (2 ^ 63 - 1)

/-- The state of `zeroWorker` after `n` calls that all read the default epoch:
every call adds one to the pair `(elapsedTime, sequence)`. -/
def wornWorker (n : Nat) : IdWorker :=
  { sequence := (8191 + n) % 8192, startTime := 155710080000, workerId := 0,
    elapsedTime := (((8191 + n) / 8192 : Nat) : Int) }

/-- Number of same-tick calls after which `elapsedTime` of `zeroWorker`
stands at `2^42 - 1` with the sequence exhausted. -/
def overCalls : Nat := 8192 * (2 ^ 42 - 1)

/-- The state of `zeroWorker` right after the call that wraps `elapsedTime`. -/
def wrappedWorker : IdWorker :=
  { sequence := 0, startTime := 155710080000, workerId := 0, elapsedTime := -(2 ^ 63) }

/-- A call whose clock readings are one tick (10 ms) before the default epoch. -/
def earlyReading : Reading := (Date 2019 5 5 23 59 59 990000000, Date 2019 5 5 23 59 59 990000000)

/-- Settings whose epoch is `1969-12-31 23:59:59.995 UTC`, five milliseconds
before the Unix epoch. -/
def preUnixSettings : Settings := { StartTime := ⟨62135596799, 995000000⟩, WorkerId := 0 }


/-- A call whose clock readings are one tick (10 ms) after the default epoch. -/
def lateReading : Reading := (Date 2019 5 6 0 0 0 10000000, Date 2019 5 6 0 0 0 10000000)

/-- A call whose clock readings are the Unix epoch `1970-01-01 00:00:00 UTC`. -/
def unixReading : Reading := (⟨62135596800, 0⟩, ⟨62135596800, 0⟩)

/-- The instant `2262-04-11 23:47:16.85 UTC`, the start of the last whole tick
an `int64` nanosecond count can hold. -/
def lastTickTime : Time := ⟨71358968836, 850000000⟩

/-- Settings whose epoch is `lastTickTime`. -/
def lastTickSettings : Settings := { StartTime := lastTickTime, WorkerId := 0 }

/-- The generator `NewIdWorker lastTickSettings` returns. -/
def lastTickWorker : IdWorker :=
  { sequence := 8191, startTime := 922337203685, workerId := 0, elapsedTime := 0 }

/-- Settings with the zero-value `StartTime` and worker id 1. -/
def oneSettings : Settings := { StartTime := ⟨0, 0⟩, WorkerId := 1 }

/-- The generator `NewIdWorker oneSettings` returns. -/
def oneWorker : IdWorker :=
  { sequence := 8191, startTime := 155710080000, workerId := 1, elapsedTime := 0 }

/-! ## The string form (`NextStr`) -/

/-- The alphabet of `base64.StdEncoding`. -/
def b64Alphabet : List Char :=
  "ABCDEFGHIJKLMNOPQRSTUVWXYZabcdefghijklmnopqrstuvwxyz0123456789+/".toList

/-- The character of a six-bit value. -/
def b64Char (n : Nat) : Char := b64Alphabet.getD n '='

/-- The six-bit value of a character of the alphabet. -/
def b64Val (c : Char) : Option Nat :=
  if b64Alphabet.indexOf c < 64 then some (b64Alphabet.indexOf c) else none

/-- Go `base64.StdEncoding.EncodeToString` on a list of bytes: three bytes
become four characters, the last group is padded with `=`. -/
def stdEncode : List Nat → List Char
  | [] => []
  | [a] => [b64Char (a / 4), b64Char (a % 4 * 16), '=', '=']
  | [a, b] => [b64Char (a / 4), b64Char (a % 4 * 16 + b / 16), b64Char (b % 16 * 4), '=']
  | a :: b :: c :: rest =>
    b64Char (a / 4) :: b64Char (a % 4 * 16 + b / 16) :: b64Char (b % 16 * 4 + c / 64)
      :: b64Char (c % 64) :: stdEncode rest

/-- The bytes of one group of four characters. -/
def decodeQuad (a b c d : Char) : Option (List Nat) :=
  match b64Val a, b64Val b with
  | some x, some y =>
    if c = '=' ∧ d = '=' then some [x * 4 + y / 16]
    else match b64Val c with
      | some z =>
        if d = '=' then some [x * 4 + y / 16, y % 16 * 16 + z / 4]
        else match b64Val d with
          | some w => some [x * 4 + y / 16, y % 16 * 16 + z / 4, z % 4 * 64 + w]
          | none => none
      | none => none
  | _, _ => none

/-- Go `base64.StdEncoding.DecodeString`: groups of four characters, padding
only in the last group. -/
def stdDecode : List Char → Option (List Nat)
  | [] => some []
  | a :: b :: c :: d :: rest =>
    match decodeQuad a b c d, stdDecode rest with
    | some x, some y => if x.length < 3 ∧ rest ≠ [] then none else some (x ++ y)
    | _, _ => none
  | _ => none

/-- Go `uint64(id)` for an `int64`: the value modulo `2^64`. -/
def uint64 (x : Int) : Nat := (x % 2 ^ 64).toNat

/-- Go `binary.BigEndian.PutUint64` into a fresh 8-byte buffer. -/
def putUint64 (v : Nat) : List Nat :=
  [v / 2 ^ 56 % 256, v / 2 ^ 48 % 256, v / 2 ^ 40 % 256, v / 2 ^ 32 % 256,
   v / 2 ^ 24 % 256, v / 2 ^ 16 % 256, v / 2 ^ 8 % 256, v % 256]

/-- The number a list of bytes denotes, most significant byte first. -/
def beValue (bs : List Nat) : Nat := bs.foldl (fun acc b => acc * 256 + b) 0

/-- What one `NextStr` call leaves behind: the generator state and the
returned pair `(string, err)`. -/
structure StrOutcome where
  state : IdWorker
  str : String
  err : Option Error
  deriving DecidableEq, Repr

/-- Go `NextStr`. -/
def NextStr (i : IdWorker) (now sleepNow : Time) : StrOutcome :=
  let o := NextInt i now sleepNow
  if o.err ≠ none then
    { state := o.state, str := "", err := o.err }
  else
    { state := o.state, str := String.mk (stdEncode (putUint64 (uint64 o.id))), err := o.err }

/-! ## Bit arithmetic -/

theorem nat_land_mask (n k w : Nat) :
    n &&& (2 ^ k * (2 ^ w - 1)) = 2 ^ k * ((n / 2 ^ k) % 2 ^ w) := by
  apply Nat.eq_of_testBit_eq
  intro j
  simp only [Nat.testBit_and, Nat.testBit_mul_pow_two, Nat.testBit_two_pow_sub_one,
    Nat.testBit_mod_two_pow, ← Nat.shiftRight_eq_div_pow, Nat.testBit_shiftRight]
  by_cases h : k ≤ j
  · have : k + (j - k) = j := by omega
    simp [h, this, Bool.and_comm]
  · simp [h]

theorem nat_ldiff_mask (n k w : Nat) :
    Nat.ldiff (2 ^ k * (2 ^ w - 1)) n = 2 ^ k * (2 ^ w - ((n / 2 ^ k) % 2 ^ w + 1)) := by
  apply Nat.eq_of_testBit_eq
  intro j
  have hlt : (n / 2 ^ k) % 2 ^ w < 2 ^ w := Nat.mod_lt _ (Nat.two_pow_pos w)
  have key : ∀ i, ((n / 2 ^ k) % 2 ^ w).testBit i = (decide (i < w) && n.testBit (k + i)) := by
    intro i
    simp only [Nat.testBit_mod_two_pow, ← Nat.shiftRight_eq_div_pow, Nat.testBit_shiftRight]
  rw [Nat.testBit_ldiff, Nat.testBit_mul_pow_two, Nat.testBit_mul_pow_two,
    Nat.testBit_two_pow_sub_one, Nat.testBit_two_pow_sub_succ hlt, key]
  by_cases h : k ≤ j
  · have : k + (j - k) = j := by omega
    by_cases h2 : j - k < w <;> simp [h, this, h2]
  · simp [h]

/-- Masking an integer of either sign with `w` one-bits starting at bit `k`
keeps the base-`2^w` digit of `x / 2^k`, in place. -/
theorem int_land_mask (x : Int) (k w : Nat) :
    Int.land x ((2 ^ k * (2 ^ w - 1) : Nat) : Int) = 2 ^ k * ((x / 2 ^ k) % 2 ^ w) := by
  have hk : (0 : Int) < 2 ^ k := by positivity
  have hw : (0 : Int) < 2 ^ w := by positivity
  rcases x with n | n
  · change ((n &&& (2 ^ k * (2 ^ w - 1)) : Nat) : Int) = 2 ^ k * (((n : Int) / 2 ^ k) % 2 ^ w)
    rw [nat_land_mask]
    push_cast
    rfl
  · change ((Nat.ldiff (2 ^ k * (2 ^ w - 1)) n : Nat) : Int)
      = 2 ^ k * ((Int.negSucc n / 2 ^ k) % 2 ^ w)
    rw [nat_ldiff_mask]
    have hlt : (n / 2 ^ k) % 2 ^ w < 2 ^ w := Nat.mod_lt _ (Nat.two_pow_pos w)
    have e1 : (Int.negSucc n) / (2 ^ k : Int) = -((n : Int) / 2 ^ k + 1) := by
      rw [Int.negSucc_ediv _ hk]
      rfl
    have e2 : (-((n : Int) / 2 ^ k + 1)) % (2 ^ w : Int)
        = 2 ^ w - (((n : Int) / 2 ^ k) % 2 ^ w + 1) := by
      have hm := Int.emod_add_ediv ((n : Int) / 2 ^ k) (2 ^ w)
      have hb := Int.emod_nonneg ((n : Int) / 2 ^ k) (ne_of_gt hw)
      have hb2 := Int.emod_lt_of_pos ((n : Int) / 2 ^ k) hw
      have : -((n : Int) / 2 ^ k + 1)
          = (2 ^ w - (((n : Int) / 2 ^ k) % 2 ^ w + 1))
            + 2 ^ w * (-(((n : Int) / 2 ^ k) / 2 ^ w) - 1) := by
        linear_combination hm
      rw [this, Int.add_mul_emod_self_left]
      exact Int.emod_eq_of_lt (by linarith) (by linarith)
    rw [e1, e2, Nat.cast_mul, Nat.cast_sub (by omega)]
    push_cast
    rfl

theorem nat_ldiff_low (q b k : Nat) (hb : b < 2 ^ k) :
    Nat.ldiff (2 ^ k * q + (2 ^ k - 1)) b = 2 ^ k * q + (2 ^ k - (b + 1)) := by
  have h1 : 2 ^ k - 1 < 2 ^ k := Nat.sub_lt (Nat.two_pow_pos k) Nat.one_pos
  have h2 : 2 ^ k - (b + 1) < 2 ^ k := by omega
  apply Nat.eq_of_testBit_eq
  intro j
  simp only [Nat.testBit_ldiff, Nat.testBit_mul_pow_two_add _ h1, Nat.testBit_mul_pow_two_add _ h2,
    Nat.testBit_two_pow_sub_one, Nat.testBit_two_pow_sub_succ hb]
  by_cases h : j < k
  · simp [h]
  · have : b < 2 ^ j := lt_of_lt_of_le hb (Nat.pow_le_pow_right (by norm_num) (by omega))
    simp [h, Nat.testBit_lt_two_pow this]

/-- Or-ing a multiple of `2^k` (of either sign) with a `k`-bit value adds them. -/
theorem int_lor_add (a : Int) (b k : Nat) (ha : (2 ^ k : Int) ∣ a) (hb : b < 2 ^ k) :
    Int.lor a (b : Int) = a + b := by
  rcases a with m | m
  · change ((m ||| b : Nat) : Int) = (m : Int) + b
    have hm : 2 ^ k ∣ m := by
      have : ((2 ^ k : Nat) : Int) ∣ (m : Int) := by
        rw [Nat.cast_pow]; exact ha
      exact Int.natCast_dvd_natCast.mp this
    obtain ⟨q, rfl⟩ := hm
    rw [← Nat.mul_add_lt_is_or hb]
    push_cast
    rfl
  · change Int.negSucc (Nat.ldiff m b) = Int.negSucc m + b
    have hm : 2 ^ k ∣ m + 1 := by
      have h0 : (2 ^ k : Int) ∣ -(Int.negSucc m) := (Int.dvd_neg).mpr ha
      have : ((2 ^ k : Nat) : Int) ∣ ((m + 1 : Nat) : Int) := by
        rw [Nat.cast_pow]
        simpa [Int.neg_negSucc] using h0
      exact Int.natCast_dvd_natCast.mp this
    obtain ⟨q, hq⟩ := hm
    have hpos : 0 < 2 ^ k := Nat.two_pow_pos k
    have hq1 : 1 ≤ q := by
      rcases Nat.eq_zero_or_pos q with h | h
      · subst h; simp at hq
      · exact h
    have hm2 : m = 2 ^ k * (q - 1) + (2 ^ k - 1) := by
      have : 2 ^ k * q = 2 ^ k * (q - 1) + 2 ^ k := by
        conv_lhs => rw [show q = (q - 1) + 1 by omega]
        ring
      omega
    rw [hm2, nat_ldiff_low _ _ _ hb]
    simp only [Int.negSucc_eq]
    have h3 : ((2 ^ k - (b + 1) : Nat) : Int) = 2 ^ k - (b + 1) := by
      rw [Nat.cast_sub (by omega)]; push_cast; rfl
    have h4 : ((2 ^ k - 1 : Nat) : Int) = 2 ^ k - 1 := by
      rw [Nat.cast_sub (by omega)]; push_cast; rfl
    push_cast
    rw [h3, h4]
    ring

/-! ## `int64` wrap-around -/

theorem wrap64_of_isInt64 {x : Int} (h : isInt64 x) : wrap64 x = x := by
  unfold isInt64 at h
  unfold wrap64
  omega

theorem isInt64_wrap64 (x : Int) : isInt64 (wrap64 x) := by
  unfold isInt64 wrap64
  omega

/-! ## `Decompose` in arithmetic terms -/

theorem sar64_eq_div (x : Int) (k : Nat) : sar64 x k = x / 2 ^ k := by
  have h := Int.shiftRight_eq_div_pow x k
  rw [Nat.cast_pow] at h
  exact h

theorem Decompose_eq (id : Int) :
    Decompose id = [("id", id), ("elapsedTime", id / 2 ^ 21),
      ("sequence", (id / 2 ^ 8) % 2 ^ 13), ("workerId", id % 2 ^ 8)] := by
  have hs : and64 id (shl64 (2 ^ BitLenSequence - 1) BitLenWorkerID)
      = 2 ^ 8 * ((id / 2 ^ 8) % 2 ^ 13) := by
    have hm : shl64 (2 ^ BitLenSequence - 1) BitLenWorkerID
        = ((2 ^ 8 * (2 ^ 13 - 1) : Nat) : Int) := by
      simp only [shl64, BitLenSequence, BitLenWorkerID, wrap64]
      norm_num
    rw [hm]
    exact int_land_mask id 8 13
  have hw : and64 id (2 ^ BitLenWorkerID - 1) = id % 2 ^ 8 := by
    have hm : (2 ^ BitLenWorkerID - 1 : Int) = ((2 ^ 0 * (2 ^ 8 - 1) : Nat) : Int) := by
      simp only [BitLenWorkerID]
      norm_num
    rw [hm]
    have := int_land_mask id 0 8
    simpa using this
  simp only [Decompose]
  rw [hs, hw, sar64_eq_div, sar64_eq_div]
  have h8 : (2 ^ 8 * ((id / 2 ^ 8) % 2 ^ 13) : Int) / 2 ^ BitLenWorkerID
      = (id / 2 ^ 8) % 2 ^ 13 := by
    simp only [BitLenWorkerID]
    omega
  rw [h8]
  simp only [BitLenSequence, BitLenWorkerID]


/-! ## Packing in arithmetic terms -/

/-- The three shifted fields do not overlap, so or-ing them adds them. -/
theorem or_fields (e : Int) (s w : Nat) (he : -(2 ^ 42) ≤ e) (he2 : e < 2 ^ 42)
    (hs : s < 2 ^ 13) (hw : w < 2 ^ 8) :
    or64 (or64 (shl64 e (BitLenSequence + BitLenWorkerID)) (shl64 (s : Int) BitLenWorkerID))
      (w : Int) = e * 2 ^ 21 + (s : Int) * 2 ^ 8 + (w : Int) := by
  have h1 : shl64 e (BitLenSequence + BitLenWorkerID) = e * 2 ^ 21 := by
    simp only [shl64, BitLenSequence, BitLenWorkerID]
    apply wrap64_of_isInt64
    unfold isInt64
    norm_num
    constructor <;> omega
  have h2 : shl64 (s : Int) BitLenWorkerID = ((s * 2 ^ 8 : Nat) : Int) := by
    simp only [shl64, BitLenWorkerID]
    rw [wrap64_of_isInt64]
    · push_cast; rfl
    · unfold isInt64
      norm_num at hs ⊢
      constructor <;> omega
  rw [h1, h2]
  unfold or64
  rw [int_lor_add (e * 2 ^ 21) (s * 2 ^ 8) 21 (Dvd.intro_left e rfl) (by norm_num at hs ⊢; omega)]
  rw [int_lor_add _ w 8 _ hw]
  · push_cast; rfl
  · push_cast
    exact Dvd.intro ((e * 2 ^ 13) + s) (by ring)

theorem pack_eq (i : IdWorker) (he0 : 0 ≤ i.elapsedTime) (he : i.elapsedTime < 2 ^ 42)
    (hs : i.sequence ≤ 8191) (hw : i.workerId < 256) :
    pack i = i.elapsedTime * 2 ^ 21 + (i.sequence : Int) * 2 ^ 8 + (i.workerId : Int) :=
  or_fields i.elapsedTime i.sequence i.workerId (by omega) he (by omega) (by omega)

/-! ## The clock -/

theorem tdiv_unit (u : Int) :
    Int.tdiv u 10000000 = if 0 ≤ u then u / 10000000 else -((-u) / 10000000) := by
  split
  · rename_i h
    exact Int.tdiv_eq_ediv h (by norm_num)
  · rename_i h
    have h2 : (0 : Int) ≤ -u := by omega
    have := Int.tdiv_eq_ediv h2 (show (0 : Int) ≤ 10000000 by norm_num)
    rw [Int.neg_tdiv] at this
    omega

theorem toTimeStamp_bounds (t : Time) :
    -maxTick ≤ toTimeStamp t ∧ toTimeStamp t ≤ maxTick := by
  have h := isInt64_wrap64 ((t.sec + internalToUnix) * 1000000000 + (t.nsec : Int))
  unfold isInt64 at h
  unfold toTimeStamp Time.UnixNano timeStampUnit maxTick
  rw [tdiv_unit]
  split <;> omega

theorem current_eq (i : IdWorker) (now : Time) (h1 : -maxTick ≤ i.startTime)
    (h2 : i.startTime ≤ maxTick) : current i now = toTimeStamp now - i.startTime := by
  have hb := toTimeStamp_bounds now
  unfold maxTick at *
  unfold current
  apply wrap64_of_isInt64
  unfold isInt64
  omega

/-! ## One call -/

theorem mask_eq (s : Nat) :
    ((s + 1) % 2 ^ 16) &&& ((2 ^ BitLenSequence - 1) % 2 ^ 16) = (s + 1) % 8192 := by
  have h : (2 ^ BitLenSequence - 1) % 2 ^ 16 = 2 ^ 13 - 1 := by
    simp only [BitLenSequence]; norm_num
  rw [h, Nat.and_pow_two_sub_one_eq_mod]
  omega

theorem NextInt_state (i : IdWorker) (now sleepNow : Time) :
    (NextInt i now sleepNow).state = (tick i now sleepNow).1 := by
  unfold NextInt
  simp only []
  split <;> rfl

/-- The state a call leaves, case by case. -/
theorem tick_cases (i : IdWorker) (now sleepNow : Time) :
    (i.elapsedTime < current i now ∧
      (tick i now sleepNow).1 = { i with elapsedTime := current i now, sequence := 0 }) ∨
    (current i now ≤ i.elapsedTime ∧ (i.sequence + 1) % 8192 = 0 ∧
      (tick i now sleepNow).1 =
        { i with sequence := 0, elapsedTime := wrap64 (i.elapsedTime + 1) }) ∨
    (current i now ≤ i.elapsedTime ∧ (i.sequence + 1) % 8192 ≠ 0 ∧
      (tick i now sleepNow).1 = { i with sequence := (i.sequence + 1) % 8192 }) := by
  unfold tick
  simp only [mask_eq]
  by_cases h : i.elapsedTime < current i now
  · left
    simp [h]
  · right
    by_cases h2 : (i.sequence + 1) % 8192 = 0
    · left
      simp [h, h2, not_lt.mp h]
    · right
      simp [h, h2, not_lt.mp h]


theorem NextInt_err (i : IdWorker) (now sleepNow : Time) :
    ((NextInt i now sleepNow).state.elapsedTime < 2 ^ 42 ∧
      (NextInt i now sleepNow).err = none ∧
      (NextInt i now sleepNow).id = pack (NextInt i now sleepNow).state) ∨
    (2 ^ 42 ≤ (NextInt i now sleepNow).state.elapsedTime ∧
      (NextInt i now sleepNow).err = some Error.ErrOverTime ∧
      (NextInt i now sleepNow).id = 0) := by
  unfold NextInt
  dsimp only [BitLenTime]
  split
  · right
    rename_i h
    exact ⟨h, rfl, rfl⟩
  · left
    rename_i h
    exact ⟨not_le.mp h, rfl, rfl⟩

/-- One call keeps the invariant, strictly raises the stamp, never lowers the
elapsed time and leaves worker id and start time alone. -/
theorem step_inv (n : Nat) (i : IdWorker) (now sleepNow : Time) (hn : n < 2 ^ 75)
    (h : Inv n i) :
    Inv (n + 1) (NextInt i now sleepNow).state ∧
    stamp i < stamp (NextInt i now sleepNow).state ∧
    i.elapsedTime ≤ (NextInt i now sleepNow).state.elapsedTime ∧
    (NextInt i now sleepNow).state.workerId = i.workerId ∧
    (NextInt i now sleepNow).state.startTime = i.startTime := by
  obtain ⟨hs, he, hb, hl, hu, hw⟩ := h
  have hc := current_eq i now hl hu
  have ht := toTimeStamp_bounds now
  rw [NextInt_state]
  unfold Inv stamp maxTick at *
  rcases tick_cases i now sleepNow with ⟨h1, h2⟩ | ⟨h1, h2, h3⟩ | ⟨h1, h2, h3⟩
  · rw [h2]
    refine ⟨⟨?_, ?_, ?_, ?_, ?_, ?_⟩, ?_, ?_, ?_, ?_⟩ <;> dsimp only <;> push_cast <;> omega
  · rw [h3]
    have hwrap : wrap64 (i.elapsedTime + 1) = i.elapsedTime + 1 := by
      apply wrap64_of_isInt64
      unfold isInt64
      omega
    rw [hwrap]
    refine ⟨⟨?_, ?_, ?_, ?_, ?_, ?_⟩, ?_, ?_, ?_, ?_⟩ <;> dsimp only <;> push_cast <;> omega
  · rw [h3]
    refine ⟨⟨?_, ?_, ?_, ?_, ?_, ?_⟩, ?_, ?_, ?_, ?_⟩ <;> dsimp only <;> push_cast <;> omega

/-- The identifier of a successful call, as a number. -/
theorem id_eq (n : Nat) (i : IdWorker) (now sleepNow : Time) (hn : n < 2 ^ 75) (h : Inv n i)
    (hok : (NextInt i now sleepNow).err = none) :
    (NextInt i now sleepNow).state.elapsedTime < 2 ^ 42 ∧
    (NextInt i now sleepNow).id
      = (NextInt i now sleepNow).state.elapsedTime * 2 ^ 21
        + ((NextInt i now sleepNow).state.sequence : Int) * 2 ^ 8 + (i.workerId : Int) := by
  obtain ⟨hinv, -, -, hwk, -⟩ := step_inv n i now sleepNow hn h
  obtain ⟨hs, he, -, -, -, hw⟩ := hinv
  rcases NextInt_err i now sleepNow with ⟨h1, -, h3⟩ | ⟨-, h2, -⟩
  · refine ⟨h1, ?_⟩
    rw [h3, pack_eq _ he h1 hs hw, hwk]
  · rw [h2] at hok
    cases hok

theorem stateAfter_inv : ∀ (rs : List Reading) (n : Nat) (i : IdWorker),
    Inv n i → n + rs.length ≤ 2 ^ 75 →
    Inv (n + rs.length) (stateAfter i rs) ∧ (stateAfter i rs).workerId = i.workerId ∧
    (stateAfter i rs).startTime = i.startTime ∧ i.elapsedTime ≤ (stateAfter i rs).elapsedTime
  | [], n, i, h, _ => by simpa [stateAfter] using h
  | r :: rs, n, i, h, hn => by
    simp only [List.length_cons] at hn
    obtain ⟨h1, -, h3, h4, h5⟩ := step_inv n i r.1 r.2 (by omega) h
    obtain ⟨k1, k2, k3, k4⟩ := stateAfter_inv rs (n + 1) _ h1 (by omega)
    simp only [stateAfter, List.length_cons]
    refine ⟨?_, ?_, ?_, ?_⟩
    · rw [show n + (rs.length + 1) = n + 1 + rs.length by omega]
      exact k1
    · rw [k2, h4]
    · rw [k3, h5]
    · omega

theorem ids_cons (o : Outcome) (os : List Outcome) :
    ids (o :: os) = if o.err = none then o.id :: ids os else ids os := by
  unfold ids
  by_cases h : o.err = none <;> simp [List.filterMap_cons, h]

theorem ids_append (xs ys : List Outcome) : ids (xs ++ ys) = ids xs ++ ids ys := by
  unfold ids
  exact List.filterMap_append _ _ _

theorem calls_append : ∀ (xs ys : List Reading) (i : IdWorker),
    calls i (xs ++ ys) = calls i xs ++ calls (stateAfter i xs) ys
  | [], _, _ => rfl
  | r :: xs, ys, i => by
    show NextInt i r.1 r.2 :: calls (NextInt i r.1 r.2).state (xs ++ ys)
      = NextInt i r.1 r.2 :: calls (NextInt i r.1 r.2).state xs
        ++ calls (stateAfter (NextInt i r.1 r.2).state xs) ys
    rw [calls_append xs ys]
    rfl

theorem stateAfter_append : ∀ (xs ys : List Reading) (i : IdWorker),
    stateAfter i (xs ++ ys) = stateAfter (stateAfter i xs) ys
  | [], _, _ => rfl
  | r :: xs, ys, i => by
    show stateAfter (NextInt i r.1 r.2).state (xs ++ ys)
      = stateAfter (stateAfter (NextInt i r.1 r.2).state xs) ys
    exact stateAfter_append xs ys _

/-- Within the first `2^75` calls the returned identifiers strictly increase,
and all exceed every identifier the current stamp could have produced. -/
theorem ids_increasing : ∀ (rs : List Reading) (n : Nat) (i : IdWorker),
    Inv n i → n + rs.length ≤ 2 ^ 75 →
    (∀ x ∈ ids (calls i rs), 256 * stamp i + 255 < x) ∧
    List.Pairwise (fun a b => a < b) (ids (calls i rs))
  | [], _, _, _, _ => by simp [calls, ids]
  | r :: rs, n, i, h, hn => by
    simp only [List.length_cons] at hn
    have hn1 : n < 2 ^ 75 := by omega
    obtain ⟨h1, h2, -, -, -⟩ := step_inv n i r.1 r.2 hn1 h
    obtain ⟨k1, k2⟩ := ids_increasing rs (n + 1) _ h1 (by omega)
    have hw : i.workerId < 256 := h.2.2.2.2.2
    simp only [calls]
    rw [ids_cons]
    by_cases hok : (NextInt i r.1 r.2).err = none
    · obtain ⟨-, hid⟩ := id_eq n i r.1 r.2 hn1 h hok
      have hid2 : (NextInt i r.1 r.2).id
          = 256 * stamp (NextInt i r.1 r.2).state + (i.workerId : Int) := by
        rw [hid]; unfold stamp; ring
      rw [if_pos hok]
      constructor
      · intro x hx
        rcases List.mem_cons.mp hx with rfl | hx
        · rw [hid2]; omega
        · have := k1 x hx
          omega
      · refine List.Pairwise.cons ?_ k2
        intro x hx
        have := k1 x hx
        rw [hid2]
        omega
    · rw [if_neg hok]
      refine ⟨?_, k2⟩
      intro x hx
      have := k1 x hx
      omega

/-- A successful construction yields a state satisfying the invariant. -/
theorem fresh_inv (st : Settings) (now : Time) (iw : IdWorker)
    (h : NewIdWorker st now = Except.ok iw) (hw : st.WorkerId < 256) :
    Inv 0 iw ∧ iw.workerId = st.WorkerId ∧ iw.sequence = 8191 ∧ iw.elapsedTime = 0 := by
  unfold NewIdWorker at h
  simp only [BitLenSequence] at h
  split at h
  · cases h
  · have hs := toTimeStamp_bounds st.StartTime
    have hd := toTimeStamp_bounds defaultStartTime
    injection h with h
    subst h
    refine ⟨⟨?_, ?_, ?_, ?_, ?_, hw⟩, rfl, ?_, rfl⟩
    · norm_num
    · exact le_refl _
    · norm_num
    · dsimp only
      split <;> [exact hd.1; exact hs.1]
    · dsimp only
      split <;> [exact hd.2; exact hs.2]
    · norm_num


/-! ## A run that exhausts `int64` -/

theorem toTimeStamp_default : toTimeStamp defaultStartTime = 155710080000 := by decide

theorem current_worn (n : Nat) : current (wornWorker n) epochReading.1 = 0 := by
  unfold current epochReading wornWorker
  dsimp only
  rw [toTimeStamp_default]
  decide

/-- Below the wrap point a call at the epoch reading advances the stamp by one. -/
theorem worn_step (n : Nat) (hn : n < wrapCalls) :
    (NextInt (wornWorker n) epochReading.1 epochReading.2).state = wornWorker (n + 1) := by
  rw [NextInt_state]
  have hc := current_worn n
  unfold wrapCalls at hn
  rcases tick_cases (wornWorker n) epochReading.1 epochReading.2 with
    ⟨h1, -⟩ | ⟨-, h2, h3⟩ | ⟨-, h2, h3⟩
  · rw [hc] at h1
    unfold wornWorker at h1
    dsimp only at h1
    omega
  · rw [h3]
    unfold wornWorker at h2 ⊢
    dsimp only at h2 ⊢
    have hwrap : wrap64 ((((8191 + n) / 8192 : Nat) : Int) + 1)
        = (((8191 + n) / 8192 : Nat) : Int) + 1 := by
      apply wrap64_of_isInt64
      unfold isInt64
      omega
    rw [hwrap, IdWorker.mk.injEq]
    refine ⟨by omega, rfl, rfl, by omega⟩
  · rw [h3]
    unfold wornWorker at h2 ⊢
    dsimp only at h2 ⊢
    rw [IdWorker.mk.injEq]
    refine ⟨by omega, rfl, rfl, by omega⟩

theorem worn_run : ∀ (n m : Nat), m + n ≤ wrapCalls →
    stateAfter (wornWorker m) (List.replicate n epochReading) = wornWorker (m + n)
  | 0, _, _ => rfl
  | n + 1, m, h => by
    show stateAfter (NextInt (wornWorker m) epochReading.1 epochReading.2).state
      (List.replicate n epochReading) = wornWorker (m + (n + 1))
    rw [worn_step m (by omega), worn_run n (m + 1) (by omega)]
    congr 1
    omega

theorem zeroWorker_eq : zeroWorker = wornWorker 0 := by decide

theorem zeroWorker_fresh : NewIdWorker zeroSettings defaultStartTime = Except.ok zeroWorker := by
  rfl

/-- The state reached after `wrapCalls` calls: the largest `int64` elapsed time
and an exhausted sequence. -/
theorem worn_wrapCalls :
    wornWorker wrapCalls =
      { sequence := 8191, startTime := 155710080000, workerId := 0, elapsedTime := 2 ^ 63 - 1 } := by
  decide

/-- The call that wraps: it succeeds, returns `0`, and leaves the smallest `int64`. -/
theorem wrap_call :
    (NextInt (wornWorker wrapCalls) epochReading.1 epochReading.2).state =
      { sequence := 0, startTime := 155710080000, workerId := 0, elapsedTime := -(2 ^ 63) } ∧
    (NextInt (wornWorker wrapCalls) epochReading.1 epochReading.2).err = none ∧
    (NextInt (wornWorker wrapCalls) epochReading.1 epochReading.2).id = 0 := by
  decide


/-! ## Reading fields back -/

theorem field_elapsedTime (id : Int) : field (Decompose id) "elapsedTime" = id / 2 ^ 21 := by
  rw [Decompose_eq]
  simp [field, List.lookup]

theorem field_sequence (id : Int) : field (Decompose id) "sequence" = (id / 2 ^ 8) % 2 ^ 13 := by
  rw [Decompose_eq]
  simp [field, List.lookup]

theorem field_workerId (id : Int) : field (Decompose id) "workerId" = id % 2 ^ 8 := by
  rw [Decompose_eq]
  simp [field, List.lookup]

theorem field_id (id : Int) : field (Decompose id) "id" = id := by
  rw [Decompose_eq]
  simp [field, List.lookup]

/-- The state after `wrapCalls` epoch readings from the zero-settings generator. -/
theorem zeroWorker_worn :
    stateAfter zeroWorker (List.replicate wrapCalls epochReading) = wornWorker wrapCalls := by
  have h := worn_run wrapCalls 0 (by omega)
  rw [← zeroWorker_eq, Nat.zero_add] at h
  exact h


/-! ## Uniqueness and monotonicity (C1, C2) -/

/-- C1, as amended: for every generator freshly built by `NewIdWorker` (worker
id a `uint8`), every `N < 2^75` and every sequence of `N` clock readings fed to
successive `NextInt` calls, the identifiers returned by the successful calls
are pairwise distinct. -/
theorem unique_ids_first_calls (st : Settings) (now : Time) (iw : IdWorker)
    (rs : List Reading) (h : NewIdWorker st now = Except.ok iw) (hw : st.WorkerId < 256)
    (hn : rs.length < 2 ^ 75) : (ids (calls iw rs)).Nodup := by
  have hinv := (fresh_inv st now iw h hw).1
  have hp := (ids_increasing rs 0 iw hinv (by omega)).2
  exact hp.imp (fun hab => ne_of_lt hab)

/-- Witness for C1: three calls on the zero-settings generator, the last one
with the clock set back by a tick. -/
theorem unique_ids_first_calls_witness :
    NewIdWorker zeroSettings defaultStartTime = Except.ok zeroWorker ∧
    zeroSettings.WorkerId < 256 ∧
    [epochReading, epochReading, earlyReading].length < 2 ^ 75 ∧
    (ids (calls zeroWorker [epochReading, epochReading, earlyReading])).Nodup :=
  ⟨rfl, by decide, by decide,
    unique_ids_first_calls zeroSettings defaultStartTime zeroWorker
      [epochReading, epochReading, earlyReading] rfl (by decide) (by decide)⟩

/-- C1 as stated fails: on the zero-settings generator with the clock standing
at the default epoch, call `wrapCalls + 1` wraps `elapsedTime` from `2^63 - 1`
to `-2^63` and returns `0`, and call `wrapCalls + 2` returns `0` again. -/
theorem unique_ids_counterexample :
    NewIdWorker zeroSettings defaultStartTime = Except.ok zeroWorker ∧
    ids (calls (stateAfter zeroWorker (List.replicate wrapCalls epochReading))
      [epochReading, epochReading]) = [0, 0] ∧
    ¬ (ids (calls zeroWorker (List.replicate (wrapCalls + 2) epochReading))).Nodup := by
  have hlast : ids (calls (stateAfter zeroWorker (List.replicate wrapCalls epochReading))
      [epochReading, epochReading]) = [0, 0] := by
    rw [zeroWorker_worn]
    decide
  refine ⟨rfl, hlast, ?_⟩
  rw [List.replicate_add, calls_append, ids_append]
  have h2 : List.replicate 2 epochReading = [epochReading, epochReading] := rfl
  rw [h2, hlast]
  intro hnd
  have := (List.nodup_append.mp hnd).2.1
  revert this
  decide

/-- C2, as amended: on a freshly built generator, within the first `2^75`
calls and for any clock readings (advancing, standing still or going
backwards), the identifiers of the successful calls strictly increase in call
order: a later successful call returns a strictly greater identifier. -/
theorem ids_strictly_increasing (st : Settings) (now : Time) (iw : IdWorker)
    (rs : List Reading) (h : NewIdWorker st now = Except.ok iw) (hw : st.WorkerId < 256)
    (hn : rs.length < 2 ^ 75) :
    List.Pairwise (fun a b => a < b) (ids (calls iw rs)) :=
  (ids_increasing rs 0 iw (fresh_inv st now iw h hw).1 (by omega)).2

/-- Witness for C2: a clock that stands still and then goes back one tick. -/
theorem ids_strictly_increasing_witness :
    NewIdWorker zeroSettings defaultStartTime = Except.ok zeroWorker ∧
    zeroSettings.WorkerId < 256 ∧
    [epochReading, epochReading, earlyReading, earlyReading].length < 2 ^ 75 ∧
    List.Pairwise (fun a b => a < b)
      (ids (calls zeroWorker [epochReading, epochReading, earlyReading, earlyReading])) :=
  ⟨rfl, by decide, by decide,
    ids_strictly_increasing zeroSettings defaultStartTime zeroWorker
      [epochReading, epochReading, earlyReading, earlyReading] rfl (by decide) (by decide)⟩

/-- C2 as stated fails: on the zero-settings generator with the clock standing
at the default epoch the first call returns `2097152`, and call
`wrapCalls + 1`, which wraps `elapsedTime`, returns `0`; the identifiers are
not even non-decreasing. -/
theorem ids_increasing_counterexample :
    NewIdWorker zeroSettings defaultStartTime = Except.ok zeroWorker ∧
    ids (calls zeroWorker [epochReading]) = [2097152] ∧
    ids (calls (stateAfter zeroWorker (List.replicate wrapCalls epochReading))
      [epochReading]) = [0] ∧
    ¬ List.Pairwise (fun a b => a ≤ b)
      (ids (calls zeroWorker (List.replicate (wrapCalls + 1) epochReading))) := by
  have hfirst : ids (calls zeroWorker [epochReading]) = [2097152] := by decide
  have hlast : ids (calls (stateAfter zeroWorker (List.replicate wrapCalls epochReading))
      [epochReading]) = [0] := by
    rw [zeroWorker_worn]
    decide
  refine ⟨rfl, hfirst, hlast, ?_⟩
  have hsplit : wrapCalls + 1 = 1 + (wrapCalls - 1 + 1) := by decide
  have h1 : List.replicate 1 epochReading = [epochReading] := rfl
  have hst : stateAfter (stateAfter zeroWorker [epochReading])
      (List.replicate (wrapCalls - 1) epochReading)
      = stateAfter zeroWorker (List.replicate wrapCalls epochReading) := by
    rw [← stateAfter_append, ← h1, ← List.replicate_add]
    congr 2
  rw [hsplit, List.replicate_add, List.replicate_add, h1, calls_append, calls_append, ids_append,
    ids_append, hfirst, hst, hlast]
  intro hp
  have := (List.pairwise_append.mp hp).2.2 2097152 (List.mem_singleton.mpr rfl) 0
    (List.mem_append_right _ (List.mem_singleton.mpr rfl))
  revert this
  decide


/-! ## Decomposition (C3, C4, C5) -/

/-- C3, as amended: for a generator freshly built by `NewIdWorker` and driven by
any readings, every successful `NextInt` call among the first `2^75`
returns an identifier that `Decompose` maps to the configured `WorkerId`, to
the generator's `elapsedTime` after the call and to its `sequence` after the
call. -/
theorem decompose_minted (st : Settings) (now : Time) (iw : IdWorker) (rs : List Reading)
    (r : Reading) (h : NewIdWorker st now = Except.ok iw) (hw : st.WorkerId < 256)
    (hn : rs.length < 2 ^ 75)
    (hok : (NextInt (stateAfter iw rs) r.1 r.2).err = none) :
    Decompose (NextInt (stateAfter iw rs) r.1 r.2).id =
      [("id", (NextInt (stateAfter iw rs) r.1 r.2).id),
       ("elapsedTime", (NextInt (stateAfter iw rs) r.1 r.2).state.elapsedTime),
       ("sequence", ((NextInt (stateAfter iw rs) r.1 r.2).state.sequence : Int)),
       ("workerId", (st.WorkerId : Int))] := by
  obtain ⟨hinv, hwk, -, -⟩ := fresh_inv st now iw h hw
  obtain ⟨k1, k2, -, -⟩ := stateAfter_inv rs 0 iw hinv (by omega)
  rw [Nat.zero_add] at k1
  obtain ⟨j1, -, -, -, -⟩ := step_inv rs.length (stateAfter iw rs) r.1 r.2 hn k1
  obtain ⟨hlt, hid⟩ := id_eq rs.length (stateAfter iw rs) r.1 r.2 hn k1 hok
  obtain ⟨hs, he, -, -, -, -⟩ := j1
  rw [k2, hwk] at hid
  rw [Decompose_eq, hid]
  have e1 : ((NextInt (stateAfter iw rs) r.1 r.2).state.elapsedTime * 2 ^ 21
      + ((NextInt (stateAfter iw rs) r.1 r.2).state.sequence : Int) * 2 ^ 8
      + (st.WorkerId : Int)) / 2 ^ 21
      = (NextInt (stateAfter iw rs) r.1 r.2).state.elapsedTime := by omega
  have e2 : (((NextInt (stateAfter iw rs) r.1 r.2).state.elapsedTime * 2 ^ 21
      + ((NextInt (stateAfter iw rs) r.1 r.2).state.sequence : Int) * 2 ^ 8
      + (st.WorkerId : Int)) / 2 ^ 8) % 2 ^ 13
      = ((NextInt (stateAfter iw rs) r.1 r.2).state.sequence : Int) := by omega
  have e3 : ((NextInt (stateAfter iw rs) r.1 r.2).state.elapsedTime * 2 ^ 21
      + ((NextInt (stateAfter iw rs) r.1 r.2).state.sequence : Int) * 2 ^ 8
      + (st.WorkerId : Int)) % 2 ^ 8 = (st.WorkerId : Int) := by omega
  rw [e1, e2, e3]

/-- Witness for C3: the second call on the zero-settings generator. -/
theorem decompose_minted_witness :
    NewIdWorker zeroSettings defaultStartTime = Except.ok zeroWorker ∧
    zeroSettings.WorkerId < 256 ∧ [epochReading].length < 2 ^ 75 ∧
    (NextInt (stateAfter zeroWorker [epochReading]) earlyReading.1 earlyReading.2).err = none ∧
    Decompose (NextInt (stateAfter zeroWorker [epochReading]) earlyReading.1 earlyReading.2).id =
      [("id", (NextInt (stateAfter zeroWorker [epochReading]) earlyReading.1 earlyReading.2).id),
       ("elapsedTime",
         (NextInt (stateAfter zeroWorker [epochReading]) earlyReading.1
           earlyReading.2).state.elapsedTime),
       ("sequence",
         ((NextInt (stateAfter zeroWorker [epochReading]) earlyReading.1
           earlyReading.2).state.sequence : Int)),
       ("workerId", (zeroSettings.WorkerId : Int))] :=
  ⟨rfl, by decide, by decide, by decide,
    decompose_minted zeroSettings defaultStartTime zeroWorker [epochReading] earlyReading rfl
      (by decide) (by decide) (by decide)⟩

/-- C3 as stated fails: after `wrapCalls` calls at the default epoch the next
call succeeds and leaves `elapsedTime = -2^63`, yet the identifier it returns
decomposes to `elapsedTime = 0`. -/
theorem decompose_minted_counterexample :
    NewIdWorker zeroSettings defaultStartTime = Except.ok zeroWorker ∧
    (NextInt (stateAfter zeroWorker (List.replicate wrapCalls epochReading))
      epochReading.1 epochReading.2).err = none ∧
    (NextInt (stateAfter zeroWorker (List.replicate wrapCalls epochReading))
      epochReading.1 epochReading.2).state.elapsedTime = -(2 ^ 63) ∧
    field (Decompose (NextInt (stateAfter zeroWorker (List.replicate wrapCalls epochReading))
      epochReading.1 epochReading.2).id) "elapsedTime" = 0 := by
  rw [zeroWorker_worn]
  obtain ⟨h1, h2, h3⟩ := wrap_call
  refine ⟨rfl, h2, ?_, ?_⟩
  · rw [h1]
  · rw [h3, field_elapsedTime]
    decide

/-- C4: for every `int64` value `id`, minted or not, negative or not, the
fields `d = Decompose(id)` recombine to it:
`d.elapsedTime<<21 | d.sequence<<8 | d.workerId = id` in 64-bit
two's-complement arithmetic. -/
theorem recombine (id : Int) (h : isInt64 id) :
    or64 (or64 (shl64 (field (Decompose id) "elapsedTime") 21)
      (shl64 (field (Decompose id) "sequence") 8)) (field (Decompose id) "workerId") = id := by
  unfold isInt64 at h
  rw [field_elapsedTime, field_sequence, field_workerId]
  have hs0 : (0 : Int) ≤ (id / 2 ^ 8) % 2 ^ 13 := by omega
  have hw0 : (0 : Int) ≤ id % 2 ^ 8 := by omega
  have hs : (((id / 2 ^ 8) % 2 ^ 13).toNat : Int) = (id / 2 ^ 8) % 2 ^ 13 :=
    Int.toNat_of_nonneg hs0
  have hw : ((id % 2 ^ 8).toNat : Int) = id % 2 ^ 8 := Int.toNat_of_nonneg hw0
  have key := or_fields (id / 2 ^ 21) ((id / 2 ^ 8) % 2 ^ 13).toNat (id % 2 ^ 8).toNat
    (by omega) (by omega) (by omega) (by omega)
  rw [hs, hw] at key
  have hk : BitLenSequence + BitLenWorkerID = 21 := rfl
  have hk2 : BitLenWorkerID = 8 := rfl
  rw [hk, hk2] at key
  rw [key]
  omega

/-- Witness for C4: the never-minted negative value `-5`. -/
theorem recombine_witness :
    isInt64 (-5) ∧
    or64 (or64 (shl64 (field (Decompose (-5)) "elapsedTime") 21)
      (shl64 (field (Decompose (-5)) "sequence") 8)) (field (Decompose (-5)) "workerId") = -5 :=
  ⟨by unfold isInt64; decide, recombine (-5) (by unfold isInt64; decide)⟩

/-- C5: for every integer `id`, negative ones included, `Decompose` returns
exactly the four keys `id`, `elapsedTime`, `sequence`, `workerId`, with `id`
echoed, `elapsedTime = ⌊id / 2^21⌋`, `sequence = ⌊id / 2^8⌋ mod 2^13` and
`workerId = id mod 2^8` (floor division, non-negative remainder); hence
`sequence` lies in `0..8191` and `workerId` in `0..255`. -/
theorem Decompose_reference (id : Int) :
    Decompose id = decomposeSpec id ∧
    (Decompose id).map Prod.fst = ["id", "elapsedTime", "sequence", "workerId"] ∧
    field (Decompose id) "id" = id ∧
    0 ≤ field (Decompose id) "sequence" ∧ field (Decompose id) "sequence" ≤ 8191 ∧
    0 ≤ field (Decompose id) "workerId" ∧ field (Decompose id) "workerId" ≤ 255 := by
  refine ⟨?_, ?_, field_id id, ?_, ?_, ?_, ?_⟩
  · rw [Decompose_eq]
    unfold decomposeSpec
    rw [Int.fdiv_eq_ediv id (by norm_num), Int.fdiv_eq_ediv id (by norm_num)]
    rfl
  · rw [Decompose_eq]
    rfl
  · rw [field_sequence]; omega
  · rw [field_sequence]; omega
  · rw [field_workerId]; omega
  · rw [field_workerId]; omega


/-! ## The overflow check (C6, C7) -/

/-- C6: for every generator state and clock reading, `NextInt` returns
`ErrOverTime` together with the value `0` exactly when the `elapsedTime` left
by the tick/sequence update of that call is at least `2^42`; in every other
case it returns the packed identifier and no error.  The state it leaves is
the updated one either way. -/
theorem overTime_iff (i : IdWorker) (now sleepNow : Time) :
    (((NextInt i now sleepNow).err = some Error.ErrOverTime ∧ (NextInt i now sleepNow).id = 0)
      ↔ 2 ^ 42 ≤ (tick i now sleepNow).1.elapsedTime) ∧
    (((NextInt i now sleepNow).err = none ∧
        (NextInt i now sleepNow).id = pack (tick i now sleepNow).1)
      ↔ (tick i now sleepNow).1.elapsedTime < 2 ^ 42) ∧
    (NextInt i now sleepNow).state = (tick i now sleepNow).1 := by
  have hst := NextInt_state i now sleepNow
  rcases NextInt_err i now sleepNow with ⟨h1, h2, h3⟩ | ⟨h1, h2, h3⟩
  · rw [hst] at h1 h3
    refine ⟨⟨fun h => ?_, fun h => ?_⟩, ⟨fun _ => h1, fun _ => ⟨h2, h3⟩⟩, hst⟩
    · rw [h2] at h
      cases h.1
    · omega
  · rw [hst] at h1
    refine ⟨⟨fun _ => h1, fun _ => ⟨h2, h3⟩⟩, ⟨fun h => ?_, fun h => ?_⟩, hst⟩
    · rw [h2] at h
      cases h.1
    · omega

theorem overtime_persists : ∀ (rs : List Reading) (n : Nat) (i : IdWorker),
    Inv n i → 2 ^ 42 ≤ i.elapsedTime → n + rs.length ≤ 2 ^ 75 →
    ∀ o ∈ calls i rs, o.err = some Error.ErrOverTime
  | [], _, _, _, _, _ => by simp [calls]
  | r :: rs, n, i, h, he, hn => by
    simp only [List.length_cons] at hn
    obtain ⟨h1, -, h3, -, -⟩ := step_inv n i r.1 r.2 (by omega) h
    have ih := overtime_persists rs (n + 1) _ h1 (by omega) (by omega)
    intro o ho
    simp only [calls, List.mem_cons] at ho
    rcases ho with rfl | ho
    · rcases NextInt_err i r.1 r.2 with ⟨k1, -, -⟩ | ⟨-, k2, -⟩
      · omega
      · exact k2
    · exact ih o ho

/-- C7, as amended: on a freshly built generator, once a `NextInt` call has
returned `ErrOverTime`, every later call among the first `2^75` calls on that
instance returns `ErrOverTime` too, whatever the clock readings. -/
theorem overTime_permanent (st : Settings) (now : Time) (iw : IdWorker)
    (rs : List Reading) (r : Reading) (later : List Reading)
    (h : NewIdWorker st now = Except.ok iw) (hw : st.WorkerId < 256)
    (hn : rs.length + 1 + later.length ≤ 2 ^ 75)
    (herr : (NextInt (stateAfter iw rs) r.1 r.2).err = some Error.ErrOverTime) :
    ∀ o ∈ calls (NextInt (stateAfter iw rs) r.1 r.2).state later,
      o.err = some Error.ErrOverTime := by
  obtain ⟨hinv, -, -, -⟩ := fresh_inv st now iw h hw
  obtain ⟨k1, -, -, -⟩ := stateAfter_inv rs 0 iw hinv (by omega)
  rw [Nat.zero_add] at k1
  obtain ⟨j1, -, -, -, -⟩ := step_inv rs.length (stateAfter iw rs) r.1 r.2 (by omega) k1
  have he : 2 ^ 42 ≤ (NextInt (stateAfter iw rs) r.1 r.2).state.elapsedTime := by
    rcases NextInt_err (stateAfter iw rs) r.1 r.2 with ⟨-, k2, -⟩ | ⟨k1, -, -⟩
    · rw [k2] at herr
      cases herr
    · exact k1
  exact overtime_persists later (rs.length + 1) _ j1 he (by omega)

/-- The state after `overCalls` epoch readings from the zero-settings generator. -/
theorem zeroWorker_over :
    stateAfter zeroWorker (List.replicate overCalls epochReading) = wornWorker overCalls := by
  have h := worn_run overCalls 0 (by decide)
  rw [← zeroWorker_eq, Nat.zero_add] at h
  exact h

/-- Witness for C7: after `overCalls` calls at the default epoch the next call
overflows the 42-bit field, and so do the two calls after it. -/
theorem overTime_permanent_witness :
    NewIdWorker zeroSettings defaultStartTime = Except.ok zeroWorker ∧
    zeroSettings.WorkerId < 256 ∧
    (List.replicate overCalls epochReading).length + 1 + [earlyReading, epochReading].length
      ≤ 2 ^ 75 ∧
    (NextInt (stateAfter zeroWorker (List.replicate overCalls epochReading))
      epochReading.1 epochReading.2).err = some Error.ErrOverTime ∧
    ∀ o ∈ calls (NextInt (stateAfter zeroWorker (List.replicate overCalls epochReading))
        epochReading.1 epochReading.2).state [earlyReading, epochReading],
      o.err = some Error.ErrOverTime :=
  ⟨rfl, by decide, by rw [List.length_replicate]; decide,
    by rw [zeroWorker_over]; decide,
    overTime_permanent zeroSettings defaultStartTime zeroWorker
      (List.replicate overCalls epochReading) epochReading [earlyReading, epochReading] rfl
      (by decide) (by rw [List.length_replicate]; decide) (by rw [zeroWorker_over]; decide)⟩

/-- C7 as stated fails: on the zero-settings generator with the clock standing
at the default epoch, call number `wrapCalls` returns `ErrOverTime` (the
elapsed time is `2^63 - 1`), and the very next call wraps the elapsed time to
`-2^63` and returns an identifier without error. -/
theorem overTime_permanent_counterexample :
    NewIdWorker zeroSettings defaultStartTime = Except.ok zeroWorker ∧
    (NextInt (stateAfter zeroWorker (List.replicate (wrapCalls - 1) epochReading))
      epochReading.1 epochReading.2).err = some Error.ErrOverTime ∧
    (NextInt (stateAfter zeroWorker (List.replicate (wrapCalls - 1) epochReading))
      epochReading.1 epochReading.2).state
      = stateAfter zeroWorker (List.replicate wrapCalls epochReading) ∧
    (NextInt (stateAfter zeroWorker (List.replicate wrapCalls epochReading))
      epochReading.1 epochReading.2).err = none := by
  have hprev : stateAfter zeroWorker (List.replicate (wrapCalls - 1) epochReading)
      = wornWorker (wrapCalls - 1) := by
    have h := worn_run (wrapCalls - 1) 0 (by omega)
    rw [← zeroWorker_eq, Nat.zero_add] at h
    exact h
  rw [hprev, zeroWorker_worn]
  exact ⟨rfl, by decide, by decide, wrap_call.2.1⟩


/-! ## The 63-bit layout (C8) -/

/-- C8, as amended: on a freshly built generator every identifier returned by
a successful call among the first `2^75` satisfies `0 ≤ id < 2^63` and equals
`elapsedTime * 2^21 + sequence * 2^8 + workerId` with `0 ≤ elapsedTime < 2^42`,
`0 ≤ sequence < 2^13` and `0 ≤ workerId < 2^8`, the fields being those of the
generator after the call. -/
theorem id_layout (st : Settings) (now : Time) (iw : IdWorker) (rs : List Reading)
    (r : Reading) (h : NewIdWorker st now = Except.ok iw) (hw : st.WorkerId < 256)
    (hn : rs.length < 2 ^ 75)
    (hok : (NextInt (stateAfter iw rs) r.1 r.2).err = none) :
    0 ≤ (NextInt (stateAfter iw rs) r.1 r.2).id ∧
    (NextInt (stateAfter iw rs) r.1 r.2).id < 2 ^ 63 ∧
    (NextInt (stateAfter iw rs) r.1 r.2).id
      = (NextInt (stateAfter iw rs) r.1 r.2).state.elapsedTime * 2 ^ 21
        + ((NextInt (stateAfter iw rs) r.1 r.2).state.sequence : Int) * 2 ^ 8
        + ((NextInt (stateAfter iw rs) r.1 r.2).state.workerId : Int) ∧
    0 ≤ (NextInt (stateAfter iw rs) r.1 r.2).state.elapsedTime ∧
    (NextInt (stateAfter iw rs) r.1 r.2).state.elapsedTime < 2 ^ 42 ∧
    (NextInt (stateAfter iw rs) r.1 r.2).state.sequence < 2 ^ 13 ∧
    (NextInt (stateAfter iw rs) r.1 r.2).state.workerId < 2 ^ 8 ∧
    (NextInt (stateAfter iw rs) r.1 r.2).state.workerId = st.WorkerId := by
  obtain ⟨hinv, hwk, -, -⟩ := fresh_inv st now iw h hw
  obtain ⟨k1, k2, -, -⟩ := stateAfter_inv rs 0 iw hinv (by omega)
  rw [Nat.zero_add] at k1
  obtain ⟨j1, -, -, j4, -⟩ := step_inv rs.length (stateAfter iw rs) r.1 r.2 hn k1
  obtain ⟨hlt, hid⟩ := id_eq rs.length (stateAfter iw rs) r.1 r.2 hn k1 hok
  obtain ⟨hs, he, -, -, -, hwb⟩ := j1
  rw [← j4] at hid
  refine ⟨?_, ?_, hid, he, hlt, by omega, by omega, by rw [j4, k2, hwk]⟩
  · rw [hid]; omega
  · rw [hid]; omega

/-- Witness for C8: the second call on the zero-settings generator. -/
theorem id_layout_witness :
    NewIdWorker zeroSettings defaultStartTime = Except.ok zeroWorker ∧
    zeroSettings.WorkerId < 256 ∧ [epochReading].length < 2 ^ 75 ∧
    (NextInt (stateAfter zeroWorker [epochReading]) earlyReading.1 earlyReading.2).err = none ∧
    0 ≤ (NextInt (stateAfter zeroWorker [epochReading]) earlyReading.1 earlyReading.2).id ∧
    (NextInt (stateAfter zeroWorker [epochReading]) earlyReading.1 earlyReading.2).id < 2 ^ 63 :=
  ⟨rfl, by decide, by decide, by decide,
    (id_layout zeroSettings defaultStartTime zeroWorker [epochReading] earlyReading rfl
      (by decide) (by decide) (by decide)).1,
    (id_layout zeroSettings defaultStartTime zeroWorker [epochReading] earlyReading rfl
      (by decide) (by decide) (by decide)).2.1⟩

/-- C8 as stated fails: after `wrapCalls + 1` calls at the default epoch the
elapsed time is `-2^63`; a call whose clock reads one tick before the epoch
then takes the new-tick branch with `elapsedTime = -1`, succeeds, and returns
the negative identifier `-2097152`. -/
theorem id_layout_counterexample :
    NewIdWorker zeroSettings defaultStartTime = Except.ok zeroWorker ∧
    (NextInt (stateAfter zeroWorker (List.replicate (wrapCalls + 1) epochReading))
      earlyReading.1 earlyReading.2).err = none ∧
    (NextInt (stateAfter zeroWorker (List.replicate (wrapCalls + 1) epochReading))
      earlyReading.1 earlyReading.2).state.elapsedTime = -1 ∧
    (NextInt (stateAfter zeroWorker (List.replicate (wrapCalls + 1) epochReading))
      earlyReading.1 earlyReading.2).id = -2097152 := by
  have hst : stateAfter zeroWorker (List.replicate (wrapCalls + 1) epochReading)
      = wrappedWorker := by
    rw [List.replicate_add, stateAfter_append, zeroWorker_worn]
    exact wrap_call.1
  rw [hst]
  have hs : (NextInt wrappedWorker earlyReading.1 earlyReading.2).state
      = { sequence := 0, startTime := 155710080000, workerId := 0, elapsedTime := -1 } := by
    decide
  have he : (NextInt wrappedWorker earlyReading.1 earlyReading.2).err = none := by
    decide
  refine ⟨rfl, he, by rw [hs], ?_⟩
  rcases NextInt_err wrappedWorker earlyReading.1 earlyReading.2 with ⟨-, -, h3⟩ | ⟨-, h2, -⟩
  · rw [h3, hs]
    have := or_fields (-1) 0 0 (by norm_num) (by norm_num) (by norm_num) (by norm_num)
    unfold pack
    dsimp only
    rw [Nat.cast_zero] at this ⊢
    rw [this]
    norm_num
  · rw [h2] at he
    cases he

/-! ## Construction (C9, C10) -/

theorem After_iff (t u : Time) (ht : t.nsec < 10 ^ 9) (hu : u.nsec < 10 ^ 9) :
    t.After u = true ↔ u.nanos < t.nanos := by
  unfold Time.After Time.nanos
  simp only [Bool.or_eq_true, Bool.and_eq_true, decide_eq_true_eq, beq_iff_eq]
  constructor
  · rintro (h | ⟨h1, h2⟩) <;> omega
  · intro h
    by_cases h1 : t.sec > u.sec
    · exact Or.inl h1
    · right
      constructor <;> omega

/-- C9: for every `Settings` and every clock reading `now` (both with
nanosecond parts below `10^9`), `NewIdWorker` returns `ErrStartTimeAfterNow`,
and no generator, exactly when `StartTime` is strictly later than `now`; in
every other case it returns a generator carrying the given `WorkerId` (0
included) and no error. -/
theorem construction_validation (st : Settings) (now : Time)
    (hs : st.StartTime.nsec < 10 ^ 9) (hn : now.nsec < 10 ^ 9) :
    (NewIdWorker st now = Except.error Error.ErrStartTimeAfterNow
      ↔ now.nanos < st.StartTime.nanos) ∧
    ((∃ iw, NewIdWorker st now = Except.ok iw ∧ iw.workerId = st.WorkerId)
      ↔ ¬ now.nanos < st.StartTime.nanos) := by
  rw [← After_iff st.StartTime now hs hn]
  unfold NewIdWorker
  dsimp only
  by_cases h : st.StartTime.After now = true
  · rw [if_pos h]
    refine ⟨⟨fun _ => h, fun _ => rfl⟩, ⟨fun k => ?_, fun k => absurd h k⟩⟩
    obtain ⟨iw, k1, -⟩ := k
    cases k1
  · rw [if_neg h]
    refine ⟨⟨fun k => ?_, fun k => absurd k h⟩, ⟨fun _ => h, fun _ => ⟨_, rfl, rfl⟩⟩⟩
    cases k

/-- Witness for C9: worker id 0 with the zero-value epoch at the default epoch. -/
theorem construction_validation_witness :
    zeroSettings.StartTime.nsec < 10 ^ 9 ∧ defaultStartTime.nsec < 10 ^ 9 ∧
    ((∃ iw, NewIdWorker zeroSettings defaultStartTime = Except.ok iw ∧
        iw.workerId = zeroSettings.WorkerId)
      ↔ ¬ defaultStartTime.nanos < zeroSettings.StartTime.nanos) :=
  ⟨by decide, by decide,
    (construction_validation zeroSettings defaultStartTime (by decide) (by decide)).2⟩

/-- C10, as amended: whenever `NewIdWorker` succeeds, the generator has
`sequence = 8191`, `elapsedTime = 0` and `workerId = Settings.WorkerId`; for a
non-zero `StartTime` its `startTime` is the `int64` Unix-nanosecond count of
`StartTime` divided by `10^7` with truncation toward zero, which is the floor
whenever that count is non-negative; for the zero-value `StartTime` it is the
tick count `155710080000` of the default epoch `2019-05-06 00:00:00 UTC`, and
construction with the zero value succeeds for every clock reading that is not
before the zero instant. -/
theorem initial_state (st : Settings) (now : Time) (iw : IdWorker)
    (h : NewIdWorker st now = Except.ok iw) :
    iw.sequence = 8191 ∧ iw.elapsedTime = 0 ∧ iw.workerId = st.WorkerId ∧
    (st.StartTime.IsZero = false →
      iw.startTime = Int.tdiv st.StartTime.UnixNano 10000000 ∧
      (0 ≤ st.StartTime.UnixNano → iw.startTime = Int.fdiv st.StartTime.UnixNano 10000000)) ∧
    (st.StartTime.IsZero = true → iw.startTime = 155710080000) ∧
    defaultStartTime.UnixNano = 1557100800 * 10 ^ 9 ∧
    (∀ (w : Nat) (t : Time), 0 ≤ t.sec →
      ∃ fresh, NewIdWorker { StartTime := ⟨0, 0⟩, WorkerId := w } t = Except.ok fresh ∧
        fresh.startTime = 155710080000) := by
  unfold NewIdWorker at h
  dsimp only at h
  split at h
  · cases h
  · injection h with h
    subst h
    refine ⟨rfl, rfl, rfl, ?_, ?_, by decide, ?_⟩
    · intro hz
      dsimp only
      rw [hz]
      refine ⟨rfl, fun hpos => ?_⟩
      rw [Int.fdiv_eq_tdiv hpos (by norm_num)]
      rfl
    · intro hz
      dsimp only
      rw [hz]
      exact toTimeStamp_default
    · intro w t ht
      have hna : Time.After ⟨0, 0⟩ t = false := by
        unfold Time.After
        dsimp only
        simp only [Bool.or_eq_false_iff, Bool.and_eq_false_iff, decide_eq_false_iff_not,
          beq_eq_false_iff_ne]
        refine ⟨by omega, Or.inr (by omega)⟩
      refine ⟨{ sequence := 8191, startTime := 155710080000, workerId := w, elapsedTime := 0 },
        ?_, rfl⟩
      unfold NewIdWorker
      dsimp only
      rw [hna]
      simp only [Bool.false_eq_true, if_false, Time.IsZero, beq_self_eq_true, Bool.and_self,
        if_true, toTimeStamp_default]
      rfl

/-- Witness for C10: the zero-settings generator built at the default epoch. -/
theorem initial_state_witness :
    NewIdWorker zeroSettings defaultStartTime = Except.ok zeroWorker ∧
    zeroWorker.sequence = 8191 ∧ zeroWorker.elapsedTime = 0 ∧
    zeroWorker.workerId = zeroSettings.WorkerId :=
  ⟨rfl, (initial_state zeroSettings defaultStartTime zeroWorker rfl).1,
    (initial_state zeroSettings defaultStartTime zeroWorker rfl).2.1,
    (initial_state zeroSettings defaultStartTime zeroWorker rfl).2.2.1⟩

/-- C10 as stated fails: with the epoch `1969-12-31 23:59:59.995 UTC`, whose
Unix-nanosecond count is `-5000000`, construction succeeds with
`startTime = 0`, while the floor of `-5000000 / 10^7` is `-1`. -/
theorem initial_state_counterexample :
    NewIdWorker preUnixSettings defaultStartTime
      = Except.ok { sequence := 8191, startTime := 0, workerId := 0, elapsedTime := 0 } ∧
    preUnixSettings.StartTime.UnixNano = -5000000 ∧
    Int.fdiv preUnixSettings.StartTime.UnixNano 10000000 = -1 := by
  refine ⟨rfl, by decide, by decide⟩

/-! ## The two branches of one call (C15, C16, C18) -/

theorem NextInt_slept (i : IdWorker) (now sleepNow : Time) :
    (NextInt i now sleepNow).slept = (tick i now sleepNow).2 := by
  unfold NextInt
  dsimp only
  split <;> rfl

/-- The state and the sleep request a call leaves, case by case. -/
theorem tick_full (i : IdWorker) (now sleepNow : Time) :
    (i.elapsedTime < current i now ∧
      tick i now sleepNow = ({ i with elapsedTime := current i now, sequence := 0 }, none)) ∨
    (current i now ≤ i.elapsedTime ∧ (i.sequence + 1) % 8192 = 0 ∧
      tick i now sleepNow =
        ({ i with sequence := 0, elapsedTime := wrap64 (i.elapsedTime + 1) },
          some (sleepTime (wrap64 (wrap64 (i.elapsedTime + 1) - current i now)) sleepNow))) ∨
    (current i now ≤ i.elapsedTime ∧ (i.sequence + 1) % 8192 ≠ 0 ∧
      tick i now sleepNow = ({ i with sequence := (i.sequence + 1) % 8192 }, none)) := by
  unfold tick
  simp only [mask_eq]
  by_cases h : i.elapsedTime < current i now
  · left
    simp [h]
  · right
    by_cases h2 : (i.sequence + 1) % 8192 = 0
    · left
      simp [h, h2, not_lt.mp h]
    · right
      simp [h, h2, not_lt.mp h]

/-- C15: for every generator state and clock reading whose tick offset
`current` (the local of `NextInt`, which is `toTimeStamp now - startTime`
whenever `startTime` is a tick count `NewIdWorker` can produce) is strictly
greater than the stored `elapsedTime`, `NextInt` leaves `elapsedTime = current`
and `sequence = 0`, whatever the previous sequence, keeps `workerId` and
`startTime`, and does not sleep. -/
theorem new_tick_step (i : IdWorker) (now sleepNow : Time)
    (h : i.elapsedTime < current i now) :
    (NextInt i now sleepNow).state.elapsedTime = current i now ∧
    (NextInt i now sleepNow).state.sequence = 0 ∧
    (NextInt i now sleepNow).state.workerId = i.workerId ∧
    (NextInt i now sleepNow).state.startTime = i.startTime ∧
    (NextInt i now sleepNow).slept = none ∧
    (-maxTick ≤ i.startTime ∧ i.startTime ≤ maxTick →
      current i now = toTimeStamp now - i.startTime) := by
  rw [NextInt_state, NextInt_slept]
  rcases tick_full i now sleepNow with ⟨-, h2⟩ | ⟨h1, -, -⟩ | ⟨h1, -, -⟩
  · rw [h2]
    exact ⟨rfl, rfl, rfl, rfl, rfl, fun hb => current_eq i now hb.1 hb.2⟩
  · omega
  · omega

/-- Witness for C15: the first call on the zero-settings generator, one tick
after the epoch. -/
theorem new_tick_step_witness :
    zeroWorker.elapsedTime < current zeroWorker lateReading.1 ∧
    (NextInt zeroWorker lateReading.1 lateReading.2).state.elapsedTime
      = current zeroWorker lateReading.1 ∧
    (NextInt zeroWorker lateReading.1 lateReading.2).state.sequence = 0 :=
  ⟨by decide, (new_tick_step zeroWorker lateReading.1 lateReading.2 (by decide)).1,
    (new_tick_step zeroWorker lateReading.1 lateReading.2 (by decide)).2.1⟩

/-- C16, as amended: for every generator state (in particular every one with
`sequence ≤ 8191`) whose `elapsedTime` is below the largest `int64`, and every clock reading with
`current ≤ elapsedTime`, `NextInt` sets `sequence` to `(sequence + 1) mod 8192`;
`elapsedTime` is unchanged, with no sleep, when the new sequence is non-zero,
and is increased by exactly 1, with a sleep of `sleepTime (elapsedTime - current)`
requested, when the new sequence is 0; `workerId` and `startTime` are unchanged. -/
theorem same_tick_step (i : IdWorker) (now sleepNow : Time)
    (hc : current i now ≤ i.elapsedTime) (hmax : i.elapsedTime < 2 ^ 63 - 1) :
    (NextInt i now sleepNow).state.sequence = (i.sequence + 1) % 8192 ∧
    ((NextInt i now sleepNow).state.sequence ≠ 0 →
      (NextInt i now sleepNow).state.elapsedTime = i.elapsedTime ∧
      (NextInt i now sleepNow).slept = none) ∧
    ((NextInt i now sleepNow).state.sequence = 0 →
      (NextInt i now sleepNow).state.elapsedTime = i.elapsedTime + 1 ∧
      (NextInt i now sleepNow).slept
        = some (sleepTime (wrap64 ((NextInt i now sleepNow).state.elapsedTime - current i now))
            sleepNow)) ∧
    (NextInt i now sleepNow).state.workerId = i.workerId ∧
    (NextInt i now sleepNow).state.startTime = i.startTime := by
  have hcur := isInt64_wrap64 (toTimeStamp now - i.startTime)
  have hwrap : wrap64 (i.elapsedTime + 1) = i.elapsedTime + 1 := by
    apply wrap64_of_isInt64
    unfold isInt64 at hcur ⊢
    unfold current at hc
    omega
  rw [NextInt_state, NextInt_slept]
  rcases tick_full i now sleepNow with ⟨h1, -⟩ | ⟨-, h2, h3⟩ | ⟨-, h2, h3⟩
  · omega
  · rw [h3, hwrap]
    refine ⟨h2.symm, fun hne => absurd rfl hne, fun _ => ⟨rfl, rfl⟩, rfl, rfl⟩
  · rw [h3]
    refine ⟨rfl, fun _ => ⟨rfl, rfl⟩, fun h0 => absurd h0 h2, rfl, rfl⟩

/-- Witness for C16: the second call on the zero-settings generator, with the
clock standing at the epoch. -/
theorem same_tick_step_witness :
    (wornWorker 1).sequence ≤ 8191 ∧
    current (wornWorker 1) epochReading.1 ≤ (wornWorker 1).elapsedTime ∧
    (wornWorker 1).elapsedTime < 2 ^ 63 - 1 ∧
    (NextInt (wornWorker 1) epochReading.1 epochReading.2).state.sequence
      = ((wornWorker 1).sequence + 1) % 8192 :=
  ⟨by decide, by decide, by decide,
    (same_tick_step (wornWorker 1) epochReading.1 epochReading.2 (by decide) (by decide)).1⟩

/-- C16 as stated fails: the state reached after `wrapCalls` calls at the
default epoch has `sequence = 8191` and `elapsedTime = 2^63 - 1`; the next call
rolls the sequence to 0 and leaves `elapsedTime = -2^63`, not `2^63`. -/
theorem same_tick_step_counterexample :
    stateAfter zeroWorker (List.replicate wrapCalls epochReading) = wornWorker wrapCalls ∧
    (wornWorker wrapCalls).sequence ≤ 8191 ∧
    (wornWorker wrapCalls).elapsedTime = 2 ^ 63 - 1 ∧
    current (wornWorker wrapCalls) epochReading.1 ≤ (wornWorker wrapCalls).elapsedTime ∧
    (NextInt (wornWorker wrapCalls) epochReading.1 epochReading.2).state.sequence = 0 ∧
    (NextInt (wornWorker wrapCalls) epochReading.1 epochReading.2).state.elapsedTime
      = -(2 ^ 63) := by
  refine ⟨zeroWorker_worn, by decide, by decide, by decide, by decide, by decide⟩

/-- C18: for a generator with `elapsedTime = 2^42 - 1` and `sequence = 8191`
and a clock reading with `current ≤ elapsedTime`, `NextInt` returns
`(0, ErrOverTime)` but has already changed the state to `elapsedTime = 2^42`,
`sequence = 0` and requested the rollover sleep; and for every state and
reading the state and sleep request left by `NextInt`, failing or not, are
those of the tick/sequence update. -/
theorem overTime_after_update (i : IdWorker) (now sleepNow : Time)
    (he : i.elapsedTime = 2 ^ 42 - 1) (hs : i.sequence = 8191)
    (hc : current i now ≤ i.elapsedTime) :
    (NextInt i now sleepNow).err = some Error.ErrOverTime ∧
    (NextInt i now sleepNow).id = 0 ∧
    (NextInt i now sleepNow).state = { i with elapsedTime := 2 ^ 42, sequence := 0 } ∧
    (NextInt i now sleepNow).slept
      = some (sleepTime (wrap64 (2 ^ 42 - current i now)) sleepNow) ∧
    (∀ (j : IdWorker) (t u : Time),
      (NextInt j t u).state = (tick j t u).1 ∧ (NextInt j t u).slept = (tick j t u).2) := by
  have hwrap : wrap64 (i.elapsedTime + 1) = 2 ^ 42 := by
    rw [he]
    decide
  have hst : (tick i now sleepNow).1 = { i with elapsedTime := 2 ^ 42, sequence := 0 } ∧
      (tick i now sleepNow).2 = some (sleepTime (wrap64 (2 ^ 42 - current i now)) sleepNow) := by
    rcases tick_full i now sleepNow with ⟨h1, -⟩ | ⟨-, -, h3⟩ | ⟨-, h2, -⟩
    · omega
    · rw [h3, hwrap]
      exact ⟨rfl, rfl⟩
    · rw [hs] at h2
      exact absurd rfl h2
  have hstate := NextInt_state i now sleepNow
  refine ⟨?_, ?_, by rw [hstate, hst.1], by rw [NextInt_slept, hst.2],
    fun j t u => ⟨NextInt_state j t u, NextInt_slept j t u⟩⟩
  · rcases NextInt_err i now sleepNow with ⟨k1, -, -⟩ | ⟨-, k2, -⟩
    · rw [hstate, hst.1] at k1
      dsimp only at k1
      omega
    · exact k2
  · rcases NextInt_err i now sleepNow with ⟨k1, -, -⟩ | ⟨-, -, k3⟩
    · rw [hstate, hst.1] at k1
      dsimp only at k1
      omega
    · exact k3

/-- Witness for C18: the state `overCalls` calls at the default epoch lead to. -/
theorem overTime_after_update_witness :
    (wornWorker overCalls).elapsedTime = 2 ^ 42 - 1 ∧ (wornWorker overCalls).sequence = 8191 ∧
    current (wornWorker overCalls) epochReading.1 ≤ (wornWorker overCalls).elapsedTime ∧
    (NextInt (wornWorker overCalls) epochReading.1 epochReading.2).err
      = some Error.ErrOverTime ∧
    (NextInt (wornWorker overCalls) epochReading.1 epochReading.2).state
      = { wornWorker overCalls with elapsedTime := 2 ^ 42, sequence := 0 } :=
  ⟨by decide, by decide, by decide,
    (overTime_after_update (wornWorker overCalls) epochReading.1 epochReading.2 (by decide)
      (by decide) (by decide)).1,
    (overTime_after_update (wornWorker overCalls) epochReading.1 epochReading.2 (by decide)
      (by decide) (by decide)).2.2.1⟩

/-! ## The first call (C12) -/

/-- C12, as amended: on a freshly built generator the first `NextInt` call
takes the new-tick branch, setting `elapsedTime` to the tick offset `current`
and `sequence` to 0 without sleeping, exactly when `current > 0`; when the
clock still reads the epoch's own tick or an earlier one (`current ≤ 0`) it
takes the artificial-increment branch: the sequence rolls from 8191 to 0,
`elapsedTime` becomes 1 and a sleep is requested. -/
theorem first_call (st : Settings) (now : Time) (iw : IdWorker) (r : Reading)
    (h : NewIdWorker st now = Except.ok iw) :
    (0 < current iw r.1 →
      (NextInt iw r.1 r.2).state.elapsedTime = current iw r.1 ∧
      (NextInt iw r.1 r.2).state.sequence = 0 ∧ (NextInt iw r.1 r.2).slept = none) ∧
    (current iw r.1 ≤ 0 →
      (NextInt iw r.1 r.2).state.elapsedTime = 1 ∧
      (NextInt iw r.1 r.2).state.sequence = 0 ∧
      (NextInt iw r.1 r.2).slept = some (sleepTime (wrap64 (1 - current iw r.1)) r.2)) := by
  have hseq : iw.sequence = 8191 ∧ iw.elapsedTime = 0 := by
    unfold NewIdWorker at h
    dsimp only at h
    split at h
    · cases h
    · injection h with h
      subst h
      exact ⟨rfl, rfl⟩
  have hwrap : wrap64 (iw.elapsedTime + 1) = 1 := by
    rw [hseq.2]
    decide
  rw [NextInt_state, NextInt_slept]
  rcases tick_full iw r.1 r.2 with ⟨h1, h2⟩ | ⟨h1, -, h3⟩ | ⟨-, h2, -⟩
  · rw [h2]
    refine ⟨fun _ => ⟨rfl, rfl, rfl⟩, fun hle => ?_⟩
    omega
  · rw [h3, hwrap]
    refine ⟨fun hpos => ?_, fun _ => ⟨rfl, rfl, rfl⟩⟩
    omega
  · rw [hseq.1] at h2
    exact absurd rfl h2

/-- Witness for C12: a first call one tick after the epoch. -/
theorem first_call_witness :
    NewIdWorker zeroSettings defaultStartTime = Except.ok zeroWorker ∧
    0 < current zeroWorker lateReading.1 ∧
    (NextInt zeroWorker lateReading.1 lateReading.2).state.elapsedTime
      = current zeroWorker lateReading.1 ∧
    (NextInt zeroWorker lateReading.1 lateReading.2).state.sequence = 0 ∧
    (NextInt zeroWorker lateReading.1 lateReading.2).slept = none :=
  ⟨rfl, by decide,
    (first_call zeroSettings defaultStartTime zeroWorker lateReading rfl).1 (by decide)⟩

/-- C12 as stated fails: a first call made while the clock still reads the
tick of the epoch (`current = 0`) takes the artificial-increment branch: it
leaves `elapsedTime = 1`, not `current`, and asks for a sleep of one tick. -/
theorem first_call_counterexample :
    NewIdWorker zeroSettings defaultStartTime = Except.ok zeroWorker ∧
    current zeroWorker epochReading.1 = 0 ∧
    (NextInt zeroWorker epochReading.1 epochReading.2).state.elapsedTime = 1 ∧
    (NextInt zeroWorker epochReading.1 epochReading.2).state.sequence = 0 ∧
    (NextInt zeroWorker epochReading.1 epochReading.2).slept = some 10000000 := by
  refine ⟨rfl, by decide, by decide, by decide, by decide⟩

/-! ## The state invariant and the time field (C17, C20) -/

/-- C17, as amended: in every generator state reached from a successful
`NewIdWorker` by fewer than `2^75` `NextInt` calls with arbitrary clock
readings, `0 ≤ sequence ≤ 8191` and `elapsedTime ≥ 0`, and the next `NextInt`
call, successful or failing, leaves `elapsedTime` greater than or equal to its
value before the call. -/
theorem state_invariant (st : Settings) (now : Time) (iw : IdWorker) (rs : List Reading)
    (r : Reading) (h : NewIdWorker st now = Except.ok iw) (hw : st.WorkerId < 256)
    (hn : rs.length < 2 ^ 75) :
    (stateAfter iw rs).sequence ≤ 8191 ∧ 0 ≤ (stateAfter iw rs).elapsedTime ∧
    (stateAfter iw rs).elapsedTime ≤ (NextInt (stateAfter iw rs) r.1 r.2).state.elapsedTime ∧
    (NextInt (stateAfter iw rs) r.1 r.2).state.sequence ≤ 8191 ∧
    0 ≤ (NextInt (stateAfter iw rs) r.1 r.2).state.elapsedTime := by
  obtain ⟨hinv, -, -, -⟩ := fresh_inv st now iw h hw
  obtain ⟨k1, -, -, -⟩ := stateAfter_inv rs 0 iw hinv (by omega)
  rw [Nat.zero_add] at k1
  obtain ⟨j1, -, j3, -, -⟩ := step_inv rs.length (stateAfter iw rs) r.1 r.2 hn k1
  exact ⟨k1.1, k1.2.1, j3, j1.1, j1.2.1⟩

/-- Witness for C17: the zero-settings generator after two calls, then a call
with the clock set back. -/
theorem state_invariant_witness :
    NewIdWorker zeroSettings defaultStartTime = Except.ok zeroWorker ∧
    zeroSettings.WorkerId < 256 ∧ [lateReading, epochReading].length < 2 ^ 75 ∧
    (stateAfter zeroWorker [lateReading, epochReading]).sequence ≤ 8191 ∧
    0 ≤ (stateAfter zeroWorker [lateReading, epochReading]).elapsedTime :=
  ⟨rfl, by decide, by decide,
    (state_invariant zeroSettings defaultStartTime zeroWorker [lateReading, epochReading]
      earlyReading rfl (by decide) (by decide)).1,
    (state_invariant zeroSettings defaultStartTime zeroWorker [lateReading, epochReading]
      earlyReading rfl (by decide) (by decide)).2.1⟩

/-- C17 as stated fails: after `wrapCalls` calls at the default epoch the
elapsed time is `2^63 - 1`, and the next call leaves `-2^63`, which is negative
and smaller than before. -/
theorem state_invariant_counterexample :
    NewIdWorker zeroSettings defaultStartTime = Except.ok zeroWorker ∧
    (stateAfter zeroWorker (List.replicate wrapCalls epochReading)).elapsedTime = 2 ^ 63 - 1 ∧
    (NextInt (stateAfter zeroWorker (List.replicate wrapCalls epochReading))
      epochReading.1 epochReading.2).state.elapsedTime = -(2 ^ 63) := by
  rw [zeroWorker_worn]
  exact ⟨rfl, by decide, by decide⟩

/-- C20, as amended: for every state reached from a successful `NewIdWorker` by
fewer than `2^75` calls and every clock reading, after the `NextInt` call the
generator's `elapsedTime` is at least the tick offset `current` of that call; so
is the `elapsedTime` decoded from the returned identifier; and it is strictly
greater only when the call did not take the new-tick branch. -/
theorem time_not_behind (st : Settings) (now : Time) (iw : IdWorker) (rs : List Reading)
    (r : Reading) (h : NewIdWorker st now = Except.ok iw) (hw : st.WorkerId < 256)
    (hn : rs.length < 2 ^ 75) :
    current (stateAfter iw rs) r.1 ≤ (NextInt (stateAfter iw rs) r.1 r.2).state.elapsedTime ∧
    ((NextInt (stateAfter iw rs) r.1 r.2).err = none →
      current (stateAfter iw rs) r.1
        ≤ field (Decompose (NextInt (stateAfter iw rs) r.1 r.2).id) "elapsedTime") ∧
    (current (stateAfter iw rs) r.1 < (NextInt (stateAfter iw rs) r.1 r.2).state.elapsedTime →
      ¬ (stateAfter iw rs).elapsedTime < current (stateAfter iw rs) r.1) := by
  obtain ⟨hinv, -, -, -⟩ := fresh_inv st now iw h hw
  obtain ⟨k1, -, -, -⟩ := stateAfter_inv rs 0 iw hinv (by omega)
  rw [Nat.zero_add] at k1
  obtain ⟨j1, -, j3, -, -⟩ := step_inv rs.length (stateAfter iw rs) r.1 r.2 hn k1
  have hnew : (stateAfter iw rs).elapsedTime < current (stateAfter iw rs) r.1 →
      (NextInt (stateAfter iw rs) r.1 r.2).state.elapsedTime
        = current (stateAfter iw rs) r.1 := by
    intro hlt
    rw [NextInt_state]
    rcases tick_cases (stateAfter iw rs) r.1 r.2 with ⟨-, h2⟩ | ⟨h1, -, -⟩ | ⟨h1, -, -⟩
    · rw [h2]
    · omega
    · omega
  have hge : current (stateAfter iw rs) r.1
      ≤ (NextInt (stateAfter iw rs) r.1 r.2).state.elapsedTime := by
    by_cases hlt : (stateAfter iw rs).elapsedTime < current (stateAfter iw rs) r.1
    · rw [hnew hlt]
    · omega
  refine ⟨hge, fun hok => ?_, fun hgt hlt => ?_⟩
  · obtain ⟨hlt, hid⟩ := id_eq rs.length (stateAfter iw rs) r.1 r.2 hn k1 hok
    obtain ⟨hs, he, -, -, -, -⟩ := j1
    have hwk : (stateAfter iw rs).workerId < 256 := k1.2.2.2.2.2
    rw [field_elapsedTime, hid]
    omega
  · rw [hnew hlt] at hgt
    omega

/-- Witness for C20: the second call on the zero-settings generator, with the
clock set back by two ticks. -/
theorem time_not_behind_witness :
    NewIdWorker zeroSettings defaultStartTime = Except.ok zeroWorker ∧
    zeroSettings.WorkerId < 256 ∧ [lateReading].length < 2 ^ 75 ∧
    current (stateAfter zeroWorker [lateReading]) earlyReading.1
      ≤ (NextInt (stateAfter zeroWorker [lateReading]) earlyReading.1
          earlyReading.2).state.elapsedTime :=
  ⟨rfl, by decide, by decide,
    (time_not_behind zeroSettings defaultStartTime zeroWorker [lateReading] earlyReading rfl
      (by decide) (by decide)).1⟩

/-- C20 as stated fails: after `wrapCalls` calls at the default epoch, a call one
tick after the epoch (`current = 1`) wraps `elapsedTime` to `-2^63` and succeeds
with an identifier whose decoded `elapsedTime` is `0`; both lag the clock. -/
theorem time_not_behind_counterexample :
    NewIdWorker zeroSettings defaultStartTime = Except.ok zeroWorker ∧
    current (stateAfter zeroWorker (List.replicate wrapCalls epochReading)) lateReading.1 = 1 ∧
    (NextInt (stateAfter zeroWorker (List.replicate wrapCalls epochReading))
      lateReading.1 lateReading.2).state.elapsedTime = -(2 ^ 63) ∧
    (NextInt (stateAfter zeroWorker (List.replicate wrapCalls epochReading))
      lateReading.1 lateReading.2).err = none ∧
    field (Decompose (NextInt (stateAfter zeroWorker (List.replicate wrapCalls epochReading))
      lateReading.1 lateReading.2).id) "elapsedTime" = 0 := by
  rw [zeroWorker_worn]
  have hid : (NextInt (wornWorker wrapCalls) lateReading.1 lateReading.2).id = 0 := by decide
  refine ⟨rfl, by decide, by decide, by decide, ?_⟩
  rw [hid, field_elapsedTime]
  decide

/-! ## Distinct workers (C13) -/

theorem dvd_wrap64 (x : Int) (h : x % 2097152 = 0) : wrap64 x % 2097152 = 0 := by
  unfold wrap64
  omega

/-- The low eight bits of a packed identifier are the worker id, whatever the
elapsed time. -/
theorem pack_mod (i : IdWorker) (hs : i.sequence ≤ 8191) (hw : i.workerId < 256) :
    pack i % 256 = (i.workerId : Int) := by
  unfold pack or64
  have h1 : (2 ^ 21 : Int) ∣ shl64 i.elapsedTime (BitLenSequence + BitLenWorkerID) := by
    apply Int.dvd_of_emod_eq_zero
    have := dvd_wrap64 (i.elapsedTime * 2 ^ 21) (by omega)
    simpa [shl64, BitLenSequence, BitLenWorkerID] using this
  have h2 : shl64 (i.sequence : Int) BitLenWorkerID = ((i.sequence * 2 ^ 8 : Nat) : Int) := by
    simp only [shl64, BitLenWorkerID]
    rw [wrap64_of_isInt64]
    · push_cast; rfl
    · unfold isInt64
      constructor <;> omega
  rw [h2, int_lor_add _ (i.sequence * 2 ^ 8) 21 h1 (by omega)]
  have h3 : (2 ^ 8 : Int) ∣ shl64 i.elapsedTime (BitLenSequence + BitLenWorkerID)
      + ((i.sequence * 2 ^ 8 : Nat) : Int) := by
    apply Int.dvd_of_emod_eq_zero
    have := Int.emod_eq_zero_of_dvd h1
    push_cast
    omega
  rw [int_lor_add _ i.workerId 8 h3 (by omega)]
  have := Int.emod_eq_zero_of_dvd h3
  omega

theorem step_sequence (i : IdWorker) (now sleepNow : Time) :
    (NextInt i now sleepNow).state.sequence ≤ 8191 ∧
    (NextInt i now sleepNow).state.workerId = i.workerId := by
  rw [NextInt_state]
  rcases tick_cases i now sleepNow with ⟨-, h2⟩ | ⟨-, -, h3⟩ | ⟨-, -, h3⟩
  · rw [h2]
    exact ⟨by norm_num, rfl⟩
  · rw [h3]
    exact ⟨by norm_num, rfl⟩
  · rw [h3]
    refine ⟨?_, rfl⟩
    dsimp only
    omega

/-- Every identifier a generator returns, after any number of calls, carries
the worker id in its low eight bits. -/
theorem ids_mod : ∀ (rs : List Reading) (i : IdWorker), i.workerId < 256 →
    ∀ x ∈ ids (calls i rs), x % 256 = (i.workerId : Int)
  | [], _, _ => by simp [calls, ids]
  | r :: rs, i, hw => by
    obtain ⟨hs, hwk⟩ := step_sequence i r.1 r.2
    have ih := ids_mod rs (NextInt i r.1 r.2).state (by rw [hwk]; exact hw)
    intro x hx
    simp only [calls] at hx
    rw [ids_cons] at hx
    by_cases hok : (NextInt i r.1 r.2).err = none
    · rw [if_pos hok] at hx
      rcases List.mem_cons.mp hx with rfl | hx
      · rcases NextInt_err i r.1 r.2 with ⟨-, -, k3⟩ | ⟨-, k2, -⟩
        · rw [k3, pack_mod _ hs (by rw [hwk]; exact hw), hwk]
        · rw [k2] at hok
          cases hok
      · rw [ih x hx, hwk]
    · rw [if_neg hok] at hx
      rw [ih x hx, hwk]

/-- C13: for any two generators built with different `WorkerId` values, with
any epochs, any construction times and any clock readings over any number of
calls, every identifier successfully returned by one differs from every
identifier successfully returned by the other. -/
theorem distinct_workers (st1 st2 : Settings) (now1 now2 : Time) (iw1 iw2 : IdWorker)
    (rs1 rs2 : List Reading) (h1 : NewIdWorker st1 now1 = Except.ok iw1)
    (h2 : NewIdWorker st2 now2 = Except.ok iw2) (hw1 : st1.WorkerId < 256)
    (hw2 : st2.WorkerId < 256) (hne : st1.WorkerId ≠ st2.WorkerId) :
    ∀ x ∈ ids (calls iw1 rs1), ∀ y ∈ ids (calls iw2 rs2), x ≠ y := by
  have e1 : iw1.workerId = st1.WorkerId := (fresh_inv st1 now1 iw1 h1 hw1).2.1
  have e2 : iw2.workerId = st2.WorkerId := (fresh_inv st2 now2 iw2 h2 hw2).2.1
  intro x hx y hy hxy
  have m1 := ids_mod rs1 iw1 (by rw [e1]; exact hw1) x hx
  have m2 := ids_mod rs2 iw2 (by rw [e2]; exact hw2) y hy
  rw [e1] at m1
  rw [e2] at m2
  rw [hxy] at m1
  omega

/-- Witness for C13: workers 0 and 1 with the same epoch and the same readings. -/
theorem distinct_workers_witness :
    NewIdWorker zeroSettings defaultStartTime = Except.ok zeroWorker ∧
    NewIdWorker oneSettings defaultStartTime = Except.ok oneWorker ∧
    zeroSettings.WorkerId < 256 ∧ oneSettings.WorkerId < 256 ∧
    zeroSettings.WorkerId ≠ oneSettings.WorkerId ∧
    ∀ x ∈ ids (calls zeroWorker [epochReading, lateReading]),
      ∀ y ∈ ids (calls oneWorker [epochReading, lateReading]), x ≠ y :=
  ⟨rfl, rfl, by decide, by decide, by decide,
    distinct_workers zeroSettings oneSettings defaultStartTime defaultStartTime zeroWorker
      oneWorker [epochReading, lateReading] [epochReading, lateReading] rfl rfl (by decide)
      (by decide) (by decide)⟩

/-! ## Sequence rollover within one tick (C11) -/

theorem fields_of_pack (i : IdWorker) (he0 : 0 ≤ i.elapsedTime) (he : i.elapsedTime < 2 ^ 42)
    (hs : i.sequence ≤ 8191) (hw : i.workerId < 256) :
    field (Decompose (pack i)) "elapsedTime" = i.elapsedTime ∧
    field (Decompose (pack i)) "sequence" = (i.sequence : Int) ∧
    field (Decompose (pack i)) "workerId" = (i.workerId : Int) := by
  rw [field_elapsedTime, field_sequence, field_workerId, pack_eq i he0 he hs hw]
  refine ⟨by omega, by omega, by omega⟩

/-- Calls that stay within the tick and within the sequence space only count
the sequence up. -/
theorem same_tick_run : ∀ (rs : List Reading) (i : IdWorker),
    (∀ r ∈ rs, current i r.1 ≤ i.elapsedTime) → i.sequence + rs.length ≤ 8191 →
    stateAfter i rs = { i with sequence := i.sequence + rs.length }
  | [], _, _, _ => rfl
  | r :: rs, i, hc, hlen => by
    simp only [List.length_cons] at hlen
    have hr := hc r (List.mem_cons_self r rs)
    have hmod : (i.sequence + 1) % 8192 = i.sequence + 1 := by omega
    have hstep : (NextInt i r.1 r.2).state = { i with sequence := i.sequence + 1 } := by
      rw [NextInt_state]
      rcases tick_cases i r.1 r.2 with ⟨h1, -⟩ | ⟨-, h2, -⟩ | ⟨-, -, h3⟩
      · omega
      · omega
      · rw [h3, hmod]
    show stateAfter (NextInt i r.1 r.2).state rs = _
    rw [hstep, same_tick_run rs { i with sequence := i.sequence + 1 }
      (fun x hx => hc x (List.mem_cons_of_mem r hx)) (by dsimp only; omega)]
    rw [IdWorker.mk.injEq]
    refine ⟨?_, rfl, rfl, rfl⟩
    simp only [List.length_cons]
    omega

/-- The state after call number `rs.length + 1` when all calls read the tick `c`. -/
theorem rollover_state (st : Settings) (now : Time) (iw : IdWorker) (c : Int)
    (rs : List Reading) (r : Reading) (h : NewIdWorker st now = Except.ok iw)
    (hw : st.WorkerId < 256) (hall : ∀ x ∈ r :: rs, toTimeStamp x.1 = c)
    (hpos : 0 < c - iw.startTime) (hlen : rs.length ≤ 8192) :
    (NextInt (stateAfter iw rs) r.1 r.2).state =
      { iw with elapsedTime := c - iw.startTime + (if rs.length = 8192 then 1 else 0),
                sequence := rs.length % 8192 } := by
  obtain ⟨hinv, -, hseq, he0⟩ := fresh_inv st now iw h hw
  obtain ⟨-, -, -, hl, hu, -⟩ := hinv
  have hcur : ∀ x ∈ r :: rs, current iw x.1 = c - iw.startTime := by
    intro x hx
    rw [current_eq iw x.1 hl hu, hall x hx]
  have hfirst : ∀ x ∈ r :: rs, (NextInt iw x.1 x.2).state
      = { iw with elapsedTime := c - iw.startTime, sequence := 0 } := by
    intro x hx
    rw [NextInt_state]
    rcases tick_cases iw x.1 x.2 with ⟨-, h2⟩ | ⟨h1, -, -⟩ | ⟨h1, -, -⟩
    · rw [h2, hcur x hx]
    · rw [hcur x hx] at h1
      omega
    · rw [hcur x hx] at h1
      omega
  cases rs with
  | nil =>
    show (NextInt iw r.1 r.2).state = _
    rw [hfirst r (List.mem_cons_self r [])]
    simp
  | cons r0 rest =>
    simp only [List.length_cons] at hlen ⊢
    have hrun : stateAfter iw (r0 :: rest)
        = { iw with elapsedTime := c - iw.startTime, sequence := rest.length } := by
      show stateAfter (NextInt iw r0.1 r0.2).state rest = _
      rw [hfirst r0 (List.mem_cons_of_mem r (List.mem_cons_self r0 rest))]
      rw [same_tick_run rest _ (fun x hx => by
        have := hcur x (List.mem_cons_of_mem r (List.mem_cons_of_mem r0 hx))
        unfold current at this ⊢
        dsimp only
        omega) (by dsimp only; omega)]
      rw [IdWorker.mk.injEq]
      exact ⟨by dsimp only; omega, rfl, rfl, rfl⟩
    rw [hrun, NextInt_state]
    have hcr : current { iw with elapsedTime := c - iw.startTime, sequence := rest.length } r.1
        = c - iw.startTime := hcur r (List.mem_cons_self r _)
    have hmx := toTimeStamp_bounds r.1
    rw [hall r (List.mem_cons_self r _)] at hmx
    unfold maxTick at hl hu hmx
    rcases tick_cases { iw with elapsedTime := c - iw.startTime, sequence := rest.length }
      r.1 r.2 with ⟨h1, -⟩ | ⟨-, h2, h3⟩ | ⟨-, h2, h3⟩
    · rw [hcr] at h1
      dsimp only at h1
      omega
    · rw [h3]
      dsimp only at h2 ⊢
      have hw64 : wrap64 (c - iw.startTime + 1) = c - iw.startTime + 1 := by
        apply wrap64_of_isInt64
        unfold isInt64
        omega
      rw [hw64, IdWorker.mk.injEq]
      have hk : rest.length + 1 = 8192 := by omega
      refine ⟨by omega, rfl, rfl, ?_⟩
      rw [if_pos hk]
    · rw [h3]
      dsimp only at h2 ⊢
      rw [IdWorker.mk.injEq]
      have hk : ¬ rest.length + 1 = 8192 := by omega
      refine ⟨rfl, rfl, rfl, ?_⟩
      rw [if_neg hk]
      omega

/-- C11: starting from a freshly built generator, with every call reading the
same tick `c` where `c - startTime > 0`, call number `k + 1` for `k < 8192`
returns an identifier whose decomposed sequence is `k` and whose decomposed
elapsed time is `c - startTime`, and call number 8193 returns one whose
decomposed elapsed time is `c - startTime + 1` and whose sequence is 0. -/
theorem sequence_rollover (st : Settings) (now : Time) (iw : IdWorker) (c : Int)
    (rs : List Reading) (r : Reading) (h : NewIdWorker st now = Except.ok iw)
    (hw : st.WorkerId < 256) (hall : ∀ x ∈ r :: rs, toTimeStamp x.1 = c)
    (hpos : 0 < c - iw.startTime) (hlen : rs.length ≤ 8192) :
    (NextInt (stateAfter iw rs) r.1 r.2).err = none ∧
    field (Decompose (NextInt (stateAfter iw rs) r.1 r.2).id) "sequence"
      = ((rs.length % 8192 : Nat) : Int) ∧
    field (Decompose (NextInt (stateAfter iw rs) r.1 r.2).id) "elapsedTime"
      = c - iw.startTime + (if rs.length = 8192 then 1 else 0) := by
  have hstate := rollover_state st now iw c rs r h hw hall hpos hlen
  obtain ⟨hinv, hwk, -, -⟩ := fresh_inv st now iw h hw
  obtain ⟨-, -, -, hl, hu, hwb⟩ := hinv
  have hmx := toTimeStamp_bounds r.1
  rw [hall r (List.mem_cons_self r _)] at hmx
  unfold maxTick at hl hu hmx
  have hbound : c - iw.startTime + (if rs.length = 8192 then 1 else 0) < 2 ^ 42 := by
    split <;> omega
  have hnonneg : 0 ≤ c - iw.startTime + (if rs.length = 8192 then 1 else 0) := by
    split <;> omega
  rcases NextInt_err (stateAfter iw rs) r.1 r.2 with ⟨-, k2, k3⟩ | ⟨k1, -, -⟩
  · obtain ⟨f1, f2, -⟩ := fields_of_pack (NextInt (stateAfter iw rs) r.1 r.2).state
      (by rw [hstate]; exact hnonneg) (by rw [hstate]; exact hbound)
      (by rw [hstate]; dsimp only; omega) (by rw [hstate]; exact hwb)
    rw [k3, f1, f2, hstate]
    exact ⟨k2, rfl, rfl⟩
  · rw [hstate] at k1
    dsimp only at k1
    omega

/-- Witness for C11: 8192 calls one tick after the epoch, then call 8193. -/
theorem sequence_rollover_witness :
    NewIdWorker zeroSettings defaultStartTime = Except.ok zeroWorker ∧
    zeroSettings.WorkerId < 256 ∧
    (∀ x ∈ lateReading :: List.replicate 8192 lateReading, toTimeStamp x.1 = 155710080001) ∧
    0 < 155710080001 - zeroWorker.startTime ∧
    (List.replicate 8192 lateReading).length ≤ 8192 ∧
    (NextInt (stateAfter zeroWorker (List.replicate 8192 lateReading))
      lateReading.1 lateReading.2).err = none ∧
    field (Decompose (NextInt (stateAfter zeroWorker (List.replicate 8192 lateReading))
      lateReading.1 lateReading.2).id) "sequence"
      = (((List.replicate 8192 lateReading).length % 8192 : Nat) : Int) ∧
    field (Decompose (NextInt (stateAfter zeroWorker (List.replicate 8192 lateReading))
      lateReading.1 lateReading.2).id) "elapsedTime"
      = 155710080001 - zeroWorker.startTime
        + (if (List.replicate 8192 lateReading).length = 8192 then 1 else 0) :=
  have hall : ∀ x ∈ lateReading :: List.replicate 8192 lateReading,
      toTimeStamp x.1 = 155710080001 := by
    intro x hx
    have hx2 : x = lateReading := by
      rcases List.mem_cons.mp hx with rfl | hx
      · rfl
      · exact List.eq_of_mem_replicate hx
    rw [hx2]
    decide
  ⟨rfl, by decide, hall, by decide, by rw [List.length_replicate],
    sequence_rollover zeroSettings defaultStartTime zeroWorker 155710080001
      (List.replicate 8192 lateReading) lateReading rfl (by decide) hall (by decide)
      (by rw [List.length_replicate])⟩

/-! ## The rollover sleep (C19) -/

/-- C19, as amended: in the rollover case, when the same clock reading `t ≥ 0`
(nanoseconds since the Unix epoch) is used for `current` and inside
`sleepTime`, and the advanced `elapsedTime` is at most `922337203685` ticks
ahead of `current` (so that the duration fits an `int64`), the requested
duration `d = sleepTime (elapsedTime - current)` is strictly positive and
`t + d = (startTime + elapsedTime) * 10^7`: the wake-up instant is the start of
the artificially advanced tick. -/
theorem sleep_to_boundary (i : IdWorker) (now : Time) (hl : -maxTick ≤ i.startTime)
    (hu : i.startTime ≤ maxTick) (ht : 0 ≤ now.UnixNano) (hc : current i now ≤ i.elapsedTime)
    (hroll : (i.sequence + 1) % 8192 = 0)
    (hlag : i.elapsedTime + 1 - current i now ≤ maxTick) :
    ∃ d, (NextInt i now now).slept = some d ∧
      d = sleepTime ((NextInt i now now).state.elapsedTime - current i now) now ∧
      0 < d ∧
      now.UnixNano + d = (i.startTime + (NextInt i now now).state.elapsedTime) * 10000000 := by
  have hcur := current_eq i now hl hu
  have hts := toTimeStamp_bounds now
  have hu64 := isInt64_wrap64 ((now.sec + internalToUnix) * 1000000000 + (now.nsec : Int))
  have hq : toTimeStamp now = now.UnixNano / 10000000 := by
    unfold toTimeStamp timeStampUnit
    exact Int.tdiv_eq_ediv ht (by norm_num)
  have hm : Int.tmod now.UnixNano timeStampUnit = now.UnixNano % 10000000 := by
    unfold timeStampUnit
    exact Int.tmod_eq_emod ht (by norm_num)
  unfold maxTick at hl hu hlag hts
  have hw1 : wrap64 (i.elapsedTime + 1) = i.elapsedTime + 1 := by
    apply wrap64_of_isInt64
    unfold isInt64
    omega
  have hw2 : wrap64 (i.elapsedTime + 1 - current i now) = i.elapsedTime + 1 - current i now := by
    apply wrap64_of_isInt64
    unfold isInt64
    omega
  have hsl : sleepTime (i.elapsedTime + 1 - current i now) now
      = (i.elapsedTime + 1 - current i now) * 10000000 - now.UnixNano % 10000000 := by
    unfold sleepTime
    rw [hm]
    have a1 : wrap64 ((i.elapsedTime + 1 - current i now) * 10)
        = (i.elapsedTime + 1 - current i now) * 10 := by
      apply wrap64_of_isInt64
      unfold isInt64
      omega
    have a2 : wrap64 ((i.elapsedTime + 1 - current i now) * 10 * 1000000)
        = (i.elapsedTime + 1 - current i now) * 10 * 1000000 := by
      apply wrap64_of_isInt64
      unfold isInt64
      omega
    have a3 : wrap64 (now.UnixNano % 10000000 * 1) = now.UnixNano % 10000000 := by
      rw [Int.mul_one]
      apply wrap64_of_isInt64
      unfold isInt64
      omega
    rw [a1, a2, a3]
    have a4 : wrap64 ((i.elapsedTime + 1 - current i now) * 10 * 1000000
        - now.UnixNano % 10000000)
        = (i.elapsedTime + 1 - current i now) * 10 * 1000000 - now.UnixNano % 10000000 := by
      apply wrap64_of_isInt64
      unfold isInt64
      omega
    rw [a4]
    ring
  rw [NextInt_state, NextInt_slept]
  rcases tick_full i now now with ⟨h1, -⟩ | ⟨-, -, h3⟩ | ⟨-, h2, -⟩
  · omega
  · rw [h3, hw1, hw2]
    refine ⟨_, rfl, rfl, ?_, ?_⟩
    · rw [hsl]
      omega
    · rw [hsl]
      dsimp only
      rw [hcur, hq]
      omega
  · exact absurd hroll h2

/-- Witness for C19: the first call on the zero-settings generator, made at the
epoch itself. -/
theorem sleep_to_boundary_witness :
    -maxTick ≤ zeroWorker.startTime ∧ zeroWorker.startTime ≤ maxTick ∧
    0 ≤ epochReading.1.UnixNano ∧
    current zeroWorker epochReading.1 ≤ zeroWorker.elapsedTime ∧
    (zeroWorker.sequence + 1) % 8192 = 0 ∧
    zeroWorker.elapsedTime + 1 - current zeroWorker epochReading.1 ≤ maxTick ∧
    ∃ d, (NextInt zeroWorker epochReading.1 epochReading.1).slept = some d ∧
      d = sleepTime ((NextInt zeroWorker epochReading.1 epochReading.1).state.elapsedTime
            - current zeroWorker epochReading.1) epochReading.1 ∧
      0 < d ∧
      epochReading.1.UnixNano + d
        = (zeroWorker.startTime
            + (NextInt zeroWorker epochReading.1 epochReading.1).state.elapsedTime) * 10000000 :=
  ⟨by decide, by decide, by decide, by decide, by decide, by decide,
    sleep_to_boundary zeroWorker epochReading.1 (by decide) (by decide) (by decide) (by decide)
      (by decide) (by decide)⟩

/-- C19 as stated fails: a generator whose epoch is the last tick an `int64`
clock can show, called for the first time with the clock back at the Unix
epoch (`t = 0`), is in the rollover case with `elapsedTime - current =
922337203686`; the duration overflows and the requested sleep is negative. -/
theorem sleep_to_boundary_counterexample :
    NewIdWorker lastTickSettings lastTickTime = Except.ok lastTickWorker ∧
    unixReading.1.UnixNano = 0 ∧
    current lastTickWorker unixReading.1 ≤ lastTickWorker.elapsedTime ∧
    (lastTickWorker.sequence + 1) % 8192 = 0 ∧
    (NextInt lastTickWorker unixReading.1 unixReading.2).state.elapsedTime
      - current lastTickWorker unixReading.1 = 922337203686 ∧
    (NextInt lastTickWorker unixReading.1 unixReading.2).slept
      = some (-9223372036849551616) := by
  refine ⟨rfl, by decide, by decide, by decide, by decide, by decide⟩

/-! ## `NextStr` encodes `NextInt` (C14) -/

theorem b64_table : ∀ n, n < 64 → b64Val (b64Char n) = some n ∧ b64Char n ≠ '=' := by
  decide

theorem quad3 (a b c : Nat) (ha : a < 256) (hb : b < 256) (hc : c < 256) :
    decodeQuad (b64Char (a / 4)) (b64Char (a % 4 * 16 + b / 16))
      (b64Char (b % 16 * 4 + c / 64)) (b64Char (c % 64)) = some [a, b, c] := by
  obtain ⟨v1, -⟩ := b64_table (a / 4) (by omega)
  obtain ⟨v2, -⟩ := b64_table (a % 4 * 16 + b / 16) (by omega)
  obtain ⟨v3, n3⟩ := b64_table (b % 16 * 4 + c / 64) (by omega)
  obtain ⟨v4, n4⟩ := b64_table (c % 64) (by omega)
  unfold decodeQuad
  rw [v1, v2]
  simp only [n3, n4, false_and, and_false, if_false, v3, v4]
  congr 2
  · omega
  · congr 1
    · omega
    · congr 1
      omega

theorem quad2 (a b : Nat) (ha : a < 256) (hb : b < 256) :
    decodeQuad (b64Char (a / 4)) (b64Char (a % 4 * 16 + b / 16))
      (b64Char (b % 16 * 4)) '=' = some [a, b] := by
  obtain ⟨v1, -⟩ := b64_table (a / 4) (by omega)
  obtain ⟨v2, -⟩ := b64_table (a % 4 * 16 + b / 16) (by omega)
  obtain ⟨v3, n3⟩ := b64_table (b % 16 * 4) (by omega)
  unfold decodeQuad
  rw [v1, v2]
  simp only [n3, false_and, if_false, v3, if_true]
  congr 2
  · omega
  · congr 1
    omega

/-- Eight bytes encode to twelve characters that decode to the same bytes. -/
theorem roundtrip8 (a b c d e f g h : Nat) (ha : a < 256) (hb : b < 256) (hc : c < 256)
    (hd : d < 256) (he : e < 256) (hf : f < 256) (hg : g < 256) (hh : h < 256) :
    (stdEncode [a, b, c, d, e, f, g, h]).length = 12 ∧
    stdDecode (stdEncode [a, b, c, d, e, f, g, h]) = some [a, b, c, d, e, f, g, h] := by
  constructor
  · rfl
  · simp only [stdEncode, stdDecode, quad3 a b c ha hb hc, quad3 d e f hd he hf,
      quad2 g h hg hh]
    simp

theorem putUint64_roundtrip (v : Nat) :
    (stdEncode (putUint64 v)).length = 12 ∧
    stdDecode (stdEncode (putUint64 v)) = some (putUint64 v) := by
  unfold putUint64
  exact roundtrip8 _ _ _ _ _ _ _ _ (Nat.mod_lt _ (by norm_num)) (Nat.mod_lt _ (by norm_num))
    (Nat.mod_lt _ (by norm_num)) (Nat.mod_lt _ (by norm_num)) (Nat.mod_lt _ (by norm_num))
    (Nat.mod_lt _ (by norm_num)) (Nat.mod_lt _ (by norm_num)) (Nat.mod_lt _ (by norm_num))

theorem beValue_putUint64 (v : Nat) (hv : v < 2 ^ 64) : beValue (putUint64 v) = v := by
  unfold beValue putUint64
  simp only [List.foldl]
  omega

theorem uint64_spec (x : Int) : uint64 x < 2 ^ 64 ∧ ((uint64 x : Nat) : Int) = x % 2 ^ 64 := by
  unfold uint64
  have h0 : (0 : Int) ≤ x % 2 ^ 64 := by omega
  have h1 : ((x % 2 ^ 64).toNat : Int) = x % 2 ^ 64 := Int.toNat_of_nonneg h0
  refine ⟨?_, h1⟩
  omega

/-- C14: for every generator state and clock reading, `NextStr` leaves the
state `NextInt` would; if `NextInt` returns `id` without error, `NextStr`
returns without error the padded standard-alphabet base64 text of the 8-byte
big-endian form of `id`: a 12-character string that decodes to 8 bytes whose
big-endian value is `uint64(id)`, which read back as an `int64` is `id`; if
`NextInt` returns `ErrOverTime`, `NextStr` returns the empty string and
`ErrOverTime`. -/
theorem NextStr_encodes (i : IdWorker) (now sleepNow : Time) :
    (NextStr i now sleepNow).state = (NextInt i now sleepNow).state ∧
    ((NextInt i now sleepNow).err = none →
      (NextStr i now sleepNow).err = none ∧
      (NextStr i now sleepNow).str
        = String.mk (stdEncode (putUint64 (uint64 (NextInt i now sleepNow).id))) ∧
      (NextStr i now sleepNow).str.length = 12 ∧
      stdDecode (NextStr i now sleepNow).str.data
        = some (putUint64 (uint64 (NextInt i now sleepNow).id)) ∧
      (putUint64 (uint64 (NextInt i now sleepNow).id)).length = 8 ∧
      ((beValue (putUint64 (uint64 (NextInt i now sleepNow).id)) : Nat) : Int)
        = (NextInt i now sleepNow).id % 2 ^ 64 ∧
      (isInt64 (NextInt i now sleepNow).id →
        wrap64 ((beValue (putUint64 (uint64 (NextInt i now sleepNow).id)) : Nat) : Int)
          = (NextInt i now sleepNow).id)) ∧
    ((NextInt i now sleepNow).err = some Error.ErrOverTime →
      (NextStr i now sleepNow).str = "" ∧
      (NextStr i now sleepNow).err = some Error.ErrOverTime) := by
  refine ⟨?_, fun hok => ?_, fun herr => ?_⟩
  · unfold NextStr
    dsimp only
    split <;> rfl
  · have hs : NextStr i now sleepNow =
        { state := (NextInt i now sleepNow).state,
          str := String.mk (stdEncode (putUint64 (uint64 (NextInt i now sleepNow).id))),
          err := (NextInt i now sleepNow).err } := by
      unfold NextStr
      dsimp only
      rw [if_neg (by rw [hok]; exact fun hne => hne rfl)]
    obtain ⟨hlen, hdec⟩ := putUint64_roundtrip (uint64 (NextInt i now sleepNow).id)
    obtain ⟨hlt, hval⟩ := uint64_spec (NextInt i now sleepNow).id
    rw [hs]
    refine ⟨hok, rfl, hlen, hdec, rfl, ?_, fun hr => ?_⟩
    · rw [beValue_putUint64 _ hlt, hval]
    · rw [beValue_putUint64 _ hlt, hval]
      unfold isInt64 at hr
      unfold wrap64
      omega
  · have hs : NextStr i now sleepNow =
        { state := (NextInt i now sleepNow).state, str := "",
          err := (NextInt i now sleepNow).err } := by
      unfold NextStr
      dsimp only
      rw [if_pos (by rw [herr]; exact fun hne => Option.noConfusion hne)]
    rw [hs]
    exact ⟨rfl, herr⟩

/-- The string `NextStr` returns for the identifier `2097152`. -/
theorem NextStr_example :
    (NextStr zeroWorker lateReading.1 lateReading.2).str = "AAAAAAAgAAA=" := by
  decide

end Snowflake
